import Mathlib

/-!
Verification of the XMAP backend (parse → index → pairwise match → cache → stream).

The Rust backend stores its data in concurrent hash maps (`DashMap`); here a map
is embedded as an association list kept canonical by `mapInsert`, which puts the
new binding in front and removes any previous binding of the same key, so that
`insert` has the overwrite semantics of the concurrent map and the list length
is the map's size.  Worker pools and channels only affect emission order, which
the spec leaves unconstrained, so the match engine is embedded as the function
from the file set to the list of emitted matches.  The `f64` fields of records
are embedded as rationals (values produced by parsing decimal text), and `u8`,
`u32`, `u64`, `usize` as naturals with the range checks of the source made
explicit where they matter.
-/

deriving instance DecidableEq for Except

/-- Lookup in an association list: the value of the first binding of `k`. -/
def mapLookup {α β : Type} [DecidableEq α] (k : α) : List (α × β) → Option β
  | [] => none
  | (k2, v) :: rest => if k = k2 then some v else mapLookup k rest

/-- Insert with overwrite (the semantics of `DashMap::insert`): the new binding
is put in front and every previous binding of the same key is removed, so keys
stay pairwise distinct. -/
def mapInsert {α β : Type} [DecidableEq α] (k : α) (v : β) (m : List (α × β)) :
    List (α × β) :=
  (k, v) :: m.filter (fun p => decide (p.1 ≠ k))

/-- The keys of an association list. -/
def mapKeys {α β : Type} (m : List (α × β)) : List α :=
  m.map Prod.fst

theorem mapLookup_filter_ne {α β : Type} [DecidableEq α] (k k2 : α)
    (m : List (α × β)) (h : k2 ≠ k) :
    mapLookup k2 (m.filter (fun p => decide (p.1 ≠ k))) = mapLookup k2 m := by
  induction m with
  | nil => rfl
  | cons p rest ih =>
    cases p with
    | mk a b =>
      simp only [List.filter_cons]
      by_cases hp : a = k
      · have hd : (decide ((a, b).1 ≠ k)) = false := by simp [hp]
        rw [hd]
        simp only [Bool.false_eq_true, if_false]
        rw [ih]
        have h2 : ¬ (k2 = a) := by rw [hp]; exact h
        simp [mapLookup, h2]
      · have hd : (decide ((a, b).1 ≠ k)) = true := by simp [hp]
        rw [hd]
        simp only [if_true]
        by_cases hk2 : k2 = a
        · simp only [mapLookup]
          rw [if_pos hk2, if_pos hk2]
        · simp only [mapLookup]
          rw [if_neg hk2, if_neg hk2]
          exact ih

theorem mapLookup_insert_self {α β : Type} [DecidableEq α] (k : α) (v : β)
    (m : List (α × β)) : mapLookup k (mapInsert k v m) = some v := by
  simp [mapInsert, mapLookup]

theorem mapLookup_insert_ne {α β : Type} [DecidableEq α] (k k2 : α) (v : β)
    (m : List (α × β)) (h : k2 ≠ k) :
    mapLookup k2 (mapInsert k v m) = mapLookup k2 m := by
  simp only [mapInsert, mapLookup, if_neg h]
  exact mapLookup_filter_ne k k2 m h

theorem mapLookup_mem {α β : Type} [DecidableEq α] {k : α} {v : β}
    {m : List (α × β)} (h : mapLookup k m = some v) : (k, v) ∈ m := by
  induction m with
  | nil => simp [mapLookup] at h
  | cons p rest ih =>
    cases p with
    | mk a b =>
      by_cases hk : k = a
      · subst hk
        simp [mapLookup] at h
        simp [h]
      · simp [mapLookup, hk] at h
        simp [ih h]

theorem mem_mapLookup_of_nodup {α β : Type} [DecidableEq α] {k : α} {v : β}
    {m : List (α × β)} (hnd : (mapKeys m).Nodup) (h : (k, v) ∈ m) :
    mapLookup k m = some v := by
  induction m with
  | nil => simp at h
  | cons p rest ih =>
    cases p with
    | mk a b =>
      simp only [mapKeys, List.map_cons, List.nodup_cons] at hnd
      rcases List.mem_cons.mp h with h1 | h2
      · rw [Prod.mk.injEq] at h1
        rw [h1.1, h1.2]
        simp [mapLookup]
      · have hka : k ≠ a := by
          intro hcontra
          subst hcontra
          exact hnd.1 (List.mem_map.mpr ⟨(k, v), h2, rfl⟩)
        simp [mapLookup, hka, ih hnd.2 h2]

theorem mapKeys_insert_nodup {α β : Type} [DecidableEq α] (k : α) (v : β)
    {m : List (α × β)} (hnd : (mapKeys m).Nodup) :
    (mapKeys (mapInsert k v m)).Nodup := by
  simp only [mapInsert, mapKeys, List.map_cons, List.nodup_cons]
  constructor
  · intro hmem
    rcases List.mem_map.mp hmem with ⟨p, hp, hpk⟩
    have := List.of_mem_filter hp
    simp [hpk] at this
  · exact List.Nodup.sublist (List.Sublist.map Prod.fst (List.filter_sublist m)) hnd

/-! ## Numeric field parsing

Models Rust's `str::parse` for the field types used by `parse_xmap_file`:
`u8` and `u32` (decimal digits with optional leading `+`, range-checked) and
`f64` (optional sign, decimal digits with an optional fraction part; the value
is embedded as a rational). -/

/-- Accumulate decimal digits into a natural number. -/
def digitsToNat (acc : Nat) : List Char → Nat
  | [] => acc
  | c :: rest => digitsToNat (acc * 10 + (c.toNat - 48)) rest

/-- A nonempty all-digit string to a natural number. -/
def parseNatCore (cs : List Char) : Option Nat :=
  if cs.isEmpty then none
  else if cs.all Char.isDigit then some (digitsToNat 0 cs) else none

/-- Rust's unsigned integer parsing accepts one optional leading `+`. -/
def stripPlusSign : List Char → List Char
  | '+' :: rest => rest
  | cs => cs

/-- `str::parse::<u32>`: digits with optional `+`, value below `2 ^ 32`. -/
def parseU32 (s : List Char) : Option Nat :=
  match parseNatCore (stripPlusSign s) with
  | some n => if n < 4294967296 then some n else none
  | none => none

/-- `str::parse::<u8>`: digits with optional `+`, value below `256`. -/
def parseU8 (s : List Char) : Option Nat :=
  match parseNatCore (stripPlusSign s) with
  | some n => if n < 256 then some n else none
  | none => none

/-- Integer and fraction digit lists to a rational value. -/
def parseDecimalDigits (ip fp : List Char) : Option Rat :=
  if (ip ++ fp).isEmpty then none
  else if (ip ++ fp).all Char.isDigit then
    some (mkRat (digitsToNat 0 (ip ++ fp)) (10 ^ fp.length))
  else none

/-- `str::parse::<f64>` on the decimal forms that occur in XMAP files:
optional sign, digits, optional single dot with fraction digits. -/
def parseF64 (s : List Char) : Option Rat :=
  let signAndRest : Bool × List Char :=
    match s with
    | '-' :: rest => (true, rest)
    | '+' :: rest => (false, rest)
    | cs => (false, cs)
  match signAndRest.2.span (fun c => c != '.') with
  | (ip, []) =>
      (parseDecimalDigits ip []).map (fun q => if signAndRest.1 then -q else q)
  | (ip, _dot :: fp) =>
      if fp.contains '.' then none
      else (parseDecimalDigits ip fp).map
        (fun q => if signAndRest.1 then -q else q)

/-! ## Data model (src/backend/src/xmap.rs) -/

/-- `XmapRecord`: a single XMAP record from parsed files. -/
structure XmapRecord where
  xmap_entry_id : Nat
  qry_contig_id : Nat
  ref_contig_id : Nat
  qry_start_pos : Rat
  qry_end_pos : Rat
  ref_start_pos : Rat
  ref_end_pos : Rat
  orientation : Char
  confidence : Rat
  ref_len : Rat
deriving DecidableEq

/-- `MatchedRecord`: an individual record within a match. -/
structure MatchedRecord where
  file_index : Nat
  ref_contig_id : Nat
  qry_start_pos : Rat
  qry_end_pos : Rat
  ref_start_pos : Rat
  ref_end_pos : Rat
  orientation : Char
  confidence : Rat
  ref_len : Rat
deriving DecidableEq

/-- `XmapMatch`: a match between multiple XMAP records. -/
structure XmapMatch where
  qry_contig_id : Nat
  file_indices : List Nat
  records : List MatchedRecord
deriving DecidableEq

/-- The pair returned by `parse_xmap_file`: the records map (keyed by
`xmap_entry_id`) and the chromosome-length table (keyed by `ref_contig_id`). -/
structure ParsedFile where
  records : List (Nat × XmapRecord)
  chromosome_lengths : List (Nat × Rat)
deriving DecidableEq

/-! ## Record Parser (parse_xmap_file) -/

/-- Split a character list at every occurrence of `c` (the semantics of
Rust's `str::split`): adjacent separators and separators at the ends produce
empty pieces. -/
def splitOnCharAux (c : Char) : List Char → List Char → List (List Char)
  | [], acc => [acc.reverse]
  | x :: rest, acc =>
    if x = c then acc.reverse :: splitOnCharAux c rest []
    else splitOnCharAux c rest (x :: acc)

/-- Split a character list on a separator character. -/
def splitOnChar (c : Char) (cs : List Char) : List (List Char) :=
  splitOnCharAux c cs []

/-- Strip one trailing carriage return, as Rust's `str::lines` does. -/
def stripCr (l : List Char) : List Char :=
  match l.reverse with
  | '\r' :: rest => rest.reverse
  | _ => l

/-- Drop the final empty piece produced by a trailing newline, as Rust's
`str::lines` does. -/
def dropFinalEmpty (ls : List (List Char)) : List (List Char) :=
  match ls.reverse with
  | [] :: rest => rest.reverse
  | _ => ls

/-- The lines of the input (`str::lines` / `par_lines`). -/
def rustLines (content : String) : List (List Char) :=
  (dropFinalEmpty (splitOnChar '\n' content.toList)).map stripCr

/-- `line.starts_with('#')`. -/
def startsWithHash : List Char → Bool
  | '#' :: _ => true
  | _ => false

/-- `line.trim().is_empty()`: the line consists of whitespace only. -/
def isBlankLine (l : List Char) : Bool :=
  l.all Char.isWhitespace

/-- The non-comment, non-blank lines of the input, as filtered by
`parse_xmap_file` (`!line.starts_with('#') && !line.trim().is_empty()`). -/
def dataLines (content : String) : List (List Char) :=
  (rustLines content).filter (fun l => !(startsWithHash l) && !(isBlankLine l))

/-- Field access `fields[i]` (always in bounds where used, since the field
count was checked). -/
def getField (fields : List (List Char)) (i : Nat) : List Char :=
  fields.getD i []

/-- Lift `Option` to `Except`, with the error message of the corresponding
`map_err` in the source. -/
def orE {α : Type} (o : Option α) (msg : String) : Except String α :=
  match o with
  | some v => Except.ok v
  | none => Except.error msg

/-- One line of the loop body of `parse_xmap_file`: split on tabs, silently
skip the line (`ok none`) when it has fewer than 12 fields, otherwise parse
the numeric fields in source order, each failure aborting with an error that
names the field. -/
def parseLine12 (line : List Char) : Except String (Option XmapRecord) :=
  let fields := splitOnChar '\t' line
  if fields.length < 12 then Except.ok none
  else
    match parseU8 (getField fields 2) with
    | none => Except.error "Parse RefContigID: invalid"
    | some ref_contig_id =>
    match parseF64 (getField fields 11) with
    | none => Except.error "Parse RefLen: invalid"
    | some ref_len =>
    match parseU32 (getField fields 0) with
    | none => Except.error "Parse XmapEntryID: invalid"
    | some xmap_entry_id =>
    match parseU32 (getField fields 1) with
    | none => Except.error "Parse QryContigID: invalid"
    | some qry_contig_id =>
    match parseF64 (getField fields 3) with
    | none => Except.error "Parse QryStartPos: invalid"
    | some qry_start_pos =>
    match parseF64 (getField fields 4) with
    | none => Except.error "Parse QryEndPos: invalid"
    | some qry_end_pos =>
    match parseF64 (getField fields 5) with
    | none => Except.error "Parse RefStartPos: invalid"
    | some ref_start_pos =>
    match parseF64 (getField fields 6) with
    | none => Except.error "Parse RefEndPos: invalid"
    | some ref_end_pos =>
    match parseF64 (getField fields 8) with
    | none => Except.error "Parse Confidence: invalid"
    | some confidence =>
      Except.ok (some
        { xmap_entry_id, qry_contig_id, ref_contig_id, qry_start_pos,
          qry_end_pos, ref_start_pos, ref_end_pos,
          orientation := (getField fields 7).headD '+',
          confidence, ref_len })

/-- The two inserts a successfully parsed line performs:
`chromosome_lengths.insert(ref_contig_id, ref_len)` and
`records.insert(record.xmap_entry_id, record)`. -/
def applyLine (st : ParsedFile) (r : XmapRecord) : ParsedFile :=
  { records := mapInsert r.xmap_entry_id r st.records,
    chromosome_lengths :=
      mapInsert r.ref_contig_id r.ref_len st.chromosome_lengths }

/-- Processing one data line: skipped lines leave the state unchanged,
parse failures abort. -/
def processLine (st : ParsedFile) (line : List Char) : Except String ParsedFile :=
  match parseLine12 line with
  | Except.error e => Except.error e
  | Except.ok none => Except.ok st
  | Except.ok (some r) => Except.ok (applyLine st r)

/-- `parse_xmap_file`: parses XMAP file content into structured records plus
the chromosome-length table, or fails with the first field error. -/
def parse_xmap_file (content : String) : Except String ParsedFile :=
  (dataLines content).foldlM processLine ⟨[], []⟩

/-! ## The two-file legacy parser (modelled from the spec) -/

/-- Modelled from the spec: the repository's two-file legacy format parser is
not under src/ (src/ only carries the chromosome-length-aware 12-field
variant).  Per §4.1 the legacy format requires 9 fields per line; a record
carries the first nine columns (XmapEntryID, QryContigID, RefContigID,
QryStartPos, QryEndPos, RefStartPos, RefEndPos, Orientation, Confidence) and
there is no chromosome-length table. -/
structure LegacyRecord where
  xmap_entry_id : Nat
  qry_contig_id : Nat
  ref_contig_id : Nat
  qry_start_pos : Rat
  qry_end_pos : Rat
  ref_start_pos : Rat
  ref_end_pos : Rat
  orientation : Char
  confidence : Rat
deriving DecidableEq

/-- Modelled from the spec: one line of the legacy parser.  A line with fewer
than 9 fields is silently skipped; a numeric field failure aborts with an
error naming the field. -/
def parseLine9 (line : List Char) : Except String (Option LegacyRecord) :=
  let fields := splitOnChar '\t' line
  if fields.length < 9 then Except.ok none
  else
    match parseU32 (getField fields 0) with
    | none => Except.error "Parse XmapEntryID: invalid"
    | some xmap_entry_id =>
    match parseU32 (getField fields 1) with
    | none => Except.error "Parse QryContigID: invalid"
    | some qry_contig_id =>
    match parseU8 (getField fields 2) with
    | none => Except.error "Parse RefContigID: invalid"
    | some ref_contig_id =>
    match parseF64 (getField fields 3) with
    | none => Except.error "Parse QryStartPos: invalid"
    | some qry_start_pos =>
    match parseF64 (getField fields 4) with
    | none => Except.error "Parse QryEndPos: invalid"
    | some qry_end_pos =>
    match parseF64 (getField fields 5) with
    | none => Except.error "Parse RefStartPos: invalid"
    | some ref_start_pos =>
    match parseF64 (getField fields 6) with
    | none => Except.error "Parse RefEndPos: invalid"
    | some ref_end_pos =>
    match parseF64 (getField fields 8) with
    | none => Except.error "Parse Confidence: invalid"
    | some confidence =>
      Except.ok (some
        { xmap_entry_id, qry_contig_id, ref_contig_id, qry_start_pos,
          qry_end_pos, ref_start_pos, ref_end_pos,
          orientation := (getField fields 7).headD '+',
          confidence })

/-- Modelled from the spec: processing one legacy data line. -/
def processLine9 (st : List (Nat × LegacyRecord)) (line : List Char) :
    Except String (List (Nat × LegacyRecord)) :=
  match parseLine9 line with
  | Except.error e => Except.error e
  | Except.ok none => Except.ok st
  | Except.ok (some r) => Except.ok (mapInsert r.xmap_entry_id r st)

/-- Modelled from the spec: the legacy two-file parser over whole content. -/
def parse_xmap_file_legacy (content : String) :
    Except String (List (Nat × LegacyRecord)) :=
  (dataLines content).foldlM processLine9 []

/-! ## Parser lemmas -/

/-- The field-error messages the 12-field parser can produce. -/
def fieldErrors12 : List String :=
  ["Parse RefContigID: invalid", "Parse RefLen: invalid",
   "Parse XmapEntryID: invalid", "Parse QryContigID: invalid",
   "Parse QryStartPos: invalid", "Parse QryEndPos: invalid",
   "Parse RefStartPos: invalid", "Parse RefEndPos: invalid",
   "Parse Confidence: invalid"]

/-- The field-error messages the legacy parser can produce. -/
def fieldErrors9 : List String :=
  ["Parse XmapEntryID: invalid", "Parse QryContigID: invalid",
   "Parse RefContigID: invalid", "Parse QryStartPos: invalid",
   "Parse QryEndPos: invalid", "Parse RefStartPos: invalid",
   "Parse RefEndPos: invalid", "Parse Confidence: invalid"]

theorem parseLine12_short {line : List Char}
    (h : (splitOnChar '\t' line).length < 12) : parseLine12 line = Except.ok none := by
  unfold parseLine12
  simp [h]

theorem parseLine9_short {line : List Char}
    (h : (splitOnChar '\t' line).length < 9) : parseLine9 line = Except.ok none := by
  unfold parseLine9
  simp [h]

theorem parseLine12_error_shape {line e}
    (h : parseLine12 line = Except.error e) :
    12 ≤ (splitOnChar '\t' line).length ∧ e ∈ fieldErrors12 := by
  by_cases hlen : (splitOnChar '\t' line).length < 12
  · rw [parseLine12_short hlen] at h
    exact absurd h (by simp)
  · refine ⟨Nat.le_of_not_lt hlen, ?_⟩
    unfold parseLine12 at h
    rw [if_neg hlen] at h
    repeat' split at h
    all_goals simp_all [fieldErrors12]

theorem parseLine9_error_shape {line e}
    (h : parseLine9 line = Except.error e) :
    9 ≤ (splitOnChar '\t' line).length ∧ e ∈ fieldErrors9 := by
  by_cases hlen : (splitOnChar '\t' line).length < 9
  · rw [parseLine9_short hlen] at h
    exact absurd h (by simp)
  · refine ⟨Nat.le_of_not_lt hlen, ?_⟩
    unfold parseLine9 at h
    rw [if_neg hlen] at h
    repeat' split at h
    all_goals simp_all [fieldErrors9]

theorem foldl_processLine_error {ls : List (List Char)} {st : ParsedFile} {e : String}
    (h : ls.foldlM processLine st = Except.error e) :
    ∃ line ∈ ls, parseLine12 line = Except.error e := by
  induction ls generalizing st with
  | nil => simp [List.foldlM, pure, Except.pure] at h
  | cons l rest ih =>
    rw [List.foldlM_cons] at h
    cases hpl : parseLine12 l with
    | error e2 =>
      have hstep : processLine st l = Except.error e2 := by
        simp [processLine, hpl]
      rw [hstep] at h
      have he : e2 = e := by
        simpa [Bind.bind, Except.bind] using h
      exact ⟨l, List.mem_cons_self l rest, by rw [hpl, he]⟩
    | ok o =>
      cases o with
      | none =>
        have hstep : processLine st l = Except.ok st := by
          simp [processLine, hpl]
        rw [hstep] at h
        simp only [Bind.bind, Except.bind] at h
        rcases ih h with ⟨line, hmem, herr⟩
        exact ⟨line, List.mem_cons_of_mem l hmem, herr⟩
      | some r =>
        have hstep : processLine st l = Except.ok (applyLine st r) := by
          simp [processLine, hpl]
        rw [hstep] at h
        simp only [Bind.bind, Except.bind] at h
        rcases ih h with ⟨line, hmem, herr⟩
        exact ⟨line, List.mem_cons_of_mem l hmem, herr⟩

theorem foldl_processLine_isError {ls : List (List Char)} {st : ParsedFile}
    (h : ∃ line ∈ ls, ∃ e, parseLine12 line = Except.error e) :
    ∃ e2, ls.foldlM processLine st = Except.error e2 := by
  induction ls generalizing st with
  | nil => simp at h
  | cons l rest ih =>
    rw [List.foldlM_cons]
    cases hpl : parseLine12 l with
    | error e2 =>
      have hstep : processLine st l = Except.error e2 := by
        simp [processLine, hpl]
      rw [hstep]
      exact ⟨e2, by simp [Bind.bind, Except.bind]⟩
    | ok o =>
      have hrest : ∃ line ∈ rest, ∃ e, parseLine12 line = Except.error e := by
        rcases h with ⟨line, hmem, e, herr⟩
        rcases List.mem_cons.mp hmem with h1 | h2
        · rw [h1] at herr
          rw [herr] at hpl
          exact absurd hpl (by simp)
        · exact ⟨line, h2, e, herr⟩
      cases o with
      | none =>
        have hstep : processLine st l = Except.ok st := by
          simp [processLine, hpl]
        rw [hstep]
        simpa [Bind.bind, Except.bind] using ih hrest
      | some r =>
        have hstep : processLine st l = Except.ok (applyLine st r) := by
          simp [processLine, hpl]
        rw [hstep]
        simpa [Bind.bind, Except.bind] using ih hrest

theorem foldl_processLine9_error {ls : List (List Char)}
    {st : List (Nat × LegacyRecord)} {e : String}
    (h : ls.foldlM processLine9 st = Except.error e) :
    ∃ line ∈ ls, parseLine9 line = Except.error e := by
  induction ls generalizing st with
  | nil => simp [List.foldlM, pure, Except.pure] at h
  | cons l rest ih =>
    rw [List.foldlM_cons] at h
    cases hpl : parseLine9 l with
    | error e2 =>
      have hstep : processLine9 st l = Except.error e2 := by
        simp [processLine9, hpl]
      rw [hstep] at h
      have he : e2 = e := by
        simpa [Bind.bind, Except.bind] using h
      exact ⟨l, List.mem_cons_self l rest, by rw [hpl, he]⟩
    | ok o =>
      cases o with
      | none =>
        have hstep : processLine9 st l = Except.ok st := by
          simp [processLine9, hpl]
        rw [hstep] at h
        simp only [Bind.bind, Except.bind] at h
        rcases ih h with ⟨line, hmem, herr⟩
        exact ⟨line, List.mem_cons_of_mem l hmem, herr⟩
      | some r =>
        have hstep : processLine9 st l = Except.ok (mapInsert r.xmap_entry_id r st) := by
          simp [processLine9, hpl]
        rw [hstep] at h
        simp only [Bind.bind, Except.bind] at h
        rcases ih h with ⟨line, hmem, herr⟩
        exact ⟨line, List.mem_cons_of_mem l hmem, herr⟩

theorem foldl_processLine9_isError {ls : List (List Char)}
    {st : List (Nat × LegacyRecord)}
    (h : ∃ line ∈ ls, ∃ e, parseLine9 line = Except.error e) :
    ∃ e2, ls.foldlM processLine9 st = Except.error e2 := by
  induction ls generalizing st with
  | nil => simp at h
  | cons l rest ih =>
    rw [List.foldlM_cons]
    cases hpl : parseLine9 l with
    | error e2 =>
      have hstep : processLine9 st l = Except.error e2 := by
        simp [processLine9, hpl]
      rw [hstep]
      exact ⟨e2, by simp [Bind.bind, Except.bind]⟩
    | ok o =>
      have hrest : ∃ line ∈ rest, ∃ e, parseLine9 line = Except.error e := by
        rcases h with ⟨line, hmem, e, herr⟩
        rcases List.mem_cons.mp hmem with h1 | h2
        · rw [h1] at herr
          rw [herr] at hpl
          exact absurd hpl (by simp)
        · exact ⟨line, h2, e, herr⟩
      cases o with
      | none =>
        have hstep : processLine9 st l = Except.ok st := by
          simp [processLine9, hpl]
        rw [hstep]
        simpa [Bind.bind, Except.bind] using ih hrest
      | some r =>
        have hstep : processLine9 st l = Except.ok (mapInsert r.xmap_entry_id r st) := by
          simp [processLine9, hpl]
        rw [hstep]
        simpa [Bind.bind, Except.bind] using ih hrest

/-! ## C3 -/

/-- C3: for every input text, every non-comment, non-blank line with fewer
than the required field count (12 for the chromosome-length-aware parser in
src/, 9 for the spec-modelled two-file legacy parser) is skipped without an
error and without touching the state; an error returned by the whole parse is
exactly the field error of some line with at least the required field count,
and names the failing field; and any such failing line makes the entire parse
return an error, producing no ParsedFile. -/
theorem c3_short_skipped_bad_field_aborts (content : String) :
    (∀ (st : ParsedFile) (line : List Char), line ∈ dataLines content →
        (splitOnChar '\t' line).length < 12 → processLine st line = Except.ok st)
  ∧ (∀ e, parse_xmap_file content = Except.error e →
        ∃ line ∈ dataLines content, 12 ≤ (splitOnChar '\t' line).length ∧
          parseLine12 line = Except.error e ∧ e ∈ fieldErrors12)
  ∧ ((∃ line ∈ dataLines content, ∃ e, parseLine12 line = Except.error e) →
        ∃ e2, parse_xmap_file content = Except.error e2)
  ∧ (∀ (st : List (Nat × LegacyRecord)) (line : List Char),
        line ∈ dataLines content → (splitOnChar '\t' line).length < 9 →
        processLine9 st line = Except.ok st)
  ∧ (∀ e, parse_xmap_file_legacy content = Except.error e →
        ∃ line ∈ dataLines content, 9 ≤ (splitOnChar '\t' line).length ∧
          parseLine9 line = Except.error e ∧ e ∈ fieldErrors9)
  ∧ ((∃ line ∈ dataLines content, ∃ e, parseLine9 line = Except.error e) →
        ∃ e2, parse_xmap_file_legacy content = Except.error e2) := by
  refine ⟨?_, ?_, ?_, ?_, ?_, ?_⟩
  · intro st line _ hshort
    simp [processLine, parseLine12_short hshort]
  · intro e herr
    rcases foldl_processLine_error herr with ⟨line, hmem, hline⟩
    rcases parseLine12_error_shape hline with ⟨hlen, hfield⟩
    exact ⟨line, hmem, hlen, hline, hfield⟩
  · intro hex
    exact foldl_processLine_isError hex
  · intro st line _ hshort
    simp [processLine9, parseLine9_short hshort]
  · intro e herr
    rcases foldl_processLine9_error herr with ⟨line, hmem, hline⟩
    rcases parseLine9_error_shape hline with ⟨hlen, hfield⟩
    exact ⟨line, hmem, hlen, hline, hfield⟩
  · intro hex
    exact foldl_processLine9_isError hex

/-- Concrete input used by the C3 witness: a comment, a 2-field line (too
short, skipped) and a 12-field line whose RefContigID field is not numeric. -/
def c3Content : String :=
  "# comment\na\tb\n1\t100\tX\t1.0\t2.0\t3.0\t4.0\t+\t5.0\tHIT\t10.0\t20.0"

theorem c3_short_skipped_bad_field_aborts_witness :
    processLine ⟨[], []⟩ ("a\tb".toList) = Except.ok ⟨[], []⟩
  ∧ (∃ line ∈ dataLines c3Content, 12 ≤ (splitOnChar '\t' line).length ∧
        parseLine12 line = Except.error "Parse RefContigID: invalid" ∧
        "Parse RefContigID: invalid" ∈ fieldErrors12)
  ∧ (∃ e2, parse_xmap_file c3Content = Except.error e2)
  ∧ processLine9 [] ("a\tb".toList) = Except.ok []
  ∧ (∃ line ∈ dataLines c3Content, 9 ≤ (splitOnChar '\t' line).length ∧
        parseLine9 line = Except.error "Parse RefContigID: invalid" ∧
        "Parse RefContigID: invalid" ∈ fieldErrors9)
  ∧ (∃ e2, parse_xmap_file_legacy c3Content = Except.error e2) := by
  refine ⟨?_, ?_, ?_, ?_, ?_, ?_⟩
  · exact (c3_short_skipped_bad_field_aborts c3Content).1 ⟨[], []⟩ ("a\tb".toList)
      (by decide) (by decide)
  · exact (c3_short_skipped_bad_field_aborts c3Content).2.1
      "Parse RefContigID: invalid" (by decide)
  · exact (c3_short_skipped_bad_field_aborts c3Content).2.2.1
      ⟨("1\t100\tX\t1.0\t2.0\t3.0\t4.0\t+\t5.0\tHIT\t10.0\t20.0".toList),
        by decide, "Parse RefContigID: invalid", by decide⟩
  · exact (c3_short_skipped_bad_field_aborts c3Content).2.2.2.1 [] ("a\tb".toList)
      (by decide) (by decide)
  · exact (c3_short_skipped_bad_field_aborts c3Content).2.2.2.2.1
      "Parse RefContigID: invalid" (by decide)
  · exact (c3_short_skipped_bad_field_aborts c3Content).2.2.2.2.2
      ⟨("1\t100\tX\t1.0\t2.0\t3.0\t4.0\t+\t5.0\tHIT\t10.0\t20.0".toList),
        by decide, "Parse RefContigID: invalid", by decide⟩

/-! ## C4 -/

/-- The entry identifier a data line contributes, when it parses as a full
line (`none` for skipped or failing lines). -/
def lineEntryId (line : List Char) : Option Nat :=
  match parseLine12 line with
  | Except.ok (some r) => some r.xmap_entry_id
  | _ => none

/-- A data line with fewer fields than the 12 required. -/
def shortLine (line : List Char) : Bool :=
  decide ((splitOnChar '\t' line).length < 12)

theorem mapKeys_filter_toFinset {β : Type} (k : Nat) (m : List (Nat × β)) :
    (mapKeys (m.filter (fun p => decide (p.1 ≠ k)))).toFinset =
      (mapKeys m).toFinset.erase k := by
  ext x
  simp only [List.mem_toFinset, mapKeys, List.mem_map, List.mem_filter,
    Finset.mem_erase, decide_eq_true_eq]
  constructor
  · rintro ⟨p, ⟨hp, hne⟩, rfl⟩
    exact ⟨hne, p, hp, rfl⟩
  · rintro ⟨hne, p, hp, rfl⟩
    exact ⟨p, ⟨hp, hne⟩, rfl⟩

theorem mapKeys_insert_toFinset {β : Type} (k : Nat) (v : β) (m : List (Nat × β)) :
    (mapKeys (mapInsert k v m)).toFinset = insert k (mapKeys m).toFinset := by
  show ((k :: mapKeys (m.filter (fun p => decide (p.1 ≠ k)))).toFinset) = _
  rw [List.toFinset_cons, mapKeys_filter_toFinset]
  ext x
  simp only [Finset.mem_insert, Finset.mem_erase]
  by_cases hx : x = k <;> simp [hx]

theorem parseLine12_ok_none_short {line : List Char}
    (h : parseLine12 line = Except.ok none) :
    (splitOnChar '\t' line).length < 12 := by
  by_cases hlen : (splitOnChar '\t' line).length < 12
  · exact hlen
  · unfold parseLine12 at h
    rw [if_neg hlen] at h
    repeat' split at h
    all_goals simp_all

theorem foldl_processLine_ok_keys {ls : List (List Char)} {st pf : ParsedFile}
    (hnd : (mapKeys st.records).Nodup)
    (h : ls.foldlM processLine st = Except.ok pf) :
    (mapKeys pf.records).Nodup ∧
    (mapKeys pf.records).toFinset =
      (mapKeys st.records).toFinset ∪ (ls.filterMap lineEntryId).toFinset := by
  induction ls generalizing st with
  | nil =>
    simp only [List.foldlM, pure, Except.pure, Except.ok.injEq] at h
    subst h
    simp [hnd]
  | cons l rest ih =>
    rw [List.foldlM_cons] at h
    cases hpl : parseLine12 l with
    | error e =>
      rw [show processLine st l = Except.error e by simp [processLine, hpl]] at h
      simp [Bind.bind, Except.bind] at h
    | ok o =>
      cases o with
      | none =>
        rw [show processLine st l = Except.ok st by simp [processLine, hpl]] at h
        simp only [Bind.bind, Except.bind] at h
        have hid : lineEntryId l = none := by simp [lineEntryId, hpl]
        rcases ih hnd h with ⟨h1, h2⟩
        exact ⟨h1, by rw [h2, List.filterMap_cons, hid]⟩
      | some r =>
        rw [show processLine st l = Except.ok (applyLine st r) by
          simp [processLine, hpl]] at h
        simp only [Bind.bind, Except.bind] at h
        have hnd2 : (mapKeys (applyLine st r).records).Nodup :=
          mapKeys_insert_nodup r.xmap_entry_id r hnd
        have hid : lineEntryId l = some r.xmap_entry_id := by
          simp [lineEntryId, hpl]
        rcases ih hnd2 h with ⟨h1, h2⟩
        refine ⟨h1, ?_⟩
        rw [h2, List.filterMap_cons, hid]
        show _ = _ ∪ (List.toFinset (r.xmap_entry_id :: _))
        rw [List.toFinset_cons, Finset.union_insert]
        rw [show (applyLine st r).records = mapInsert r.xmap_entry_id r st.records
          from rfl]
        rw [mapKeys_insert_toFinset, Finset.insert_union]

theorem foldl_processLine_ok_all {ls : List (List Char)} {st pf : ParsedFile}
    (h : ls.foldlM processLine st = Except.ok pf) :
    ∀ line ∈ ls, ∃ o, parseLine12 line = Except.ok o := by
  induction ls generalizing st with
  | nil => simp
  | cons l rest ih =>
    rw [List.foldlM_cons] at h
    cases hpl : parseLine12 l with
    | error e =>
      rw [show processLine st l = Except.error e by simp [processLine, hpl]] at h
      simp [Bind.bind, Except.bind] at h
    | ok o =>
      intro line hline
      rcases List.mem_cons.mp hline with h1 | h2
      · exact ⟨o, h1 ▸ hpl⟩
      · cases o with
        | none =>
          rw [show processLine st l = Except.ok st by simp [processLine, hpl]] at h
          simp only [Bind.bind, Except.bind] at h
          exact ih h line h2
        | some r =>
          rw [show processLine st l = Except.ok (applyLine st r) by
            simp [processLine, hpl]] at h
          simp only [Bind.bind, Except.bind] at h
          exact ih h line h2

theorem filterMap_length_add_short {ls : List (List Char)}
    (hall : ∀ l ∈ ls, (lineEntryId l).isSome = !(shortLine l)) :
    (ls.filterMap lineEntryId).length + (ls.filter shortLine).length = ls.length := by
  induction ls with
  | nil => simp
  | cons l rest ih =>
    have hl := hall l (List.mem_cons_self l rest)
    have hrest := ih (fun l2 h2 => hall l2 (List.mem_cons_of_mem l h2))
    rw [List.filterMap_cons, List.filter_cons]
    by_cases hS : shortLine l = true
    · have hnone : lineEntryId l = none := by
        rw [hS] at hl
        cases hE : lineEntryId l
        · rfl
        · rw [hE] at hl
          simp at hl
      rw [hnone, if_pos hS]
      simp only [List.length_cons]
      omega
    · have hS2 : shortLine l = false := Bool.eq_false_iff.mpr hS
      have hsome : ∃ v, lineEntryId l = some v := by
        rw [hS2] at hl
        exact Option.isSome_iff_exists.mp (by rw [hl]; rfl)
      rcases hsome with ⟨v, hv⟩
      rw [hv, if_neg hS]
      simp only [List.length_cons]
      omega

/-- C4 (amended): for well-formed input the record count of the resulting
ParsedFile is the number of DISTINCT entry identifiers among the data lines
with at least 12 fields; when those identifiers are pairwise distinct this
equals N minus the number of short data lines.  (The claim's "including when
two data lines carry the same entry identifier" fails: duplicates collapse by
last-write-wins, see the counterexample.) -/
theorem c4_record_count (content : String) (pf : ParsedFile)
    (h : parse_xmap_file content = Except.ok pf) :
    pf.records.length = ((dataLines content).filterMap lineEntryId).toFinset.card
  ∧ (((dataLines content).filterMap lineEntryId).Nodup →
      pf.records.length =
        (dataLines content).length -
          ((dataLines content).filter shortLine).length) := by
  have h0 : (mapKeys (⟨[], []⟩ : ParsedFile).records).Nodup := by
    simp [mapKeys]
  have hf : (dataLines content).foldlM processLine ⟨[], []⟩ = Except.ok pf := h
  rcases foldl_processLine_ok_keys h0 hf with ⟨hnd, hset⟩
  have hlen : pf.records.length = (mapKeys pf.records).length :=
    (List.length_map pf.records Prod.fst).symm
  have hcard : (mapKeys pf.records).toFinset.card = (mapKeys pf.records).length :=
    List.toFinset_card_of_nodup hnd
  have hset2 : (mapKeys pf.records).toFinset =
      ((dataLines content).filterMap lineEntryId).toFinset := by
    rw [hset]
    show (mapKeys ([] : List (Nat × XmapRecord))).toFinset ∪ _ = _
    simp [mapKeys]
  have hmain : pf.records.length =
      ((dataLines content).filterMap lineEntryId).toFinset.card := by
    rw [hlen, ← hcard, hset2]
  refine ⟨hmain, ?_⟩
  intro hnodup
  have hall : ∀ l ∈ dataLines content, (lineEntryId l).isSome = !(shortLine l) := by
    intro l hl
    rcases foldl_processLine_ok_all hf l hl with ⟨o, ho⟩
    cases o with
    | none =>
      have hshort := parseLine12_ok_none_short ho
      simp [lineEntryId, ho, shortLine, hshort]
    | some r =>
      have hns : ¬ (splitOnChar '\t' l).length < 12 := by
        intro hcontra
        rw [parseLine12_short hcontra] at ho
        simp at ho
      simp [lineEntryId, ho, shortLine, hns]
  have hsum := filterMap_length_add_short hall
  have hcard2 : ((dataLines content).filterMap lineEntryId).toFinset.card =
      ((dataLines content).filterMap lineEntryId).length :=
    List.toFinset_card_of_nodup hnodup
  rw [hmain, hcard2]
  omega

/-- Concrete input for the C4 counterexample: two full 12-field data lines
that share entry identifier 1. -/
def c4DupContent : String :=
  "1\t100\t1\t1.0\t2.0\t3.0\t4.0\t+\t5.0\tH\t6.0\t7.0\n1\t200\t1\t1.0\t2.0\t3.0\t4.0\t+\t5.0\tH\t6.0\t7.0"

/-- C4 counterexample: two well-formed data lines with the same entry
identifier yield ONE record, not N − (number of short lines) = 2: the
record count formula of the claim fails in the duplicate-identifier case it
explicitly includes. -/
theorem c4_record_count_counterexample :
    (parse_xmap_file c4DupContent).map (fun pf => pf.records.length) =
      Except.ok 1
  ∧ (dataLines c4DupContent).length = 2
  ∧ ((dataLines c4DupContent).filter shortLine).length = 0 := by
  refine ⟨by decide, by decide, by decide⟩

/-- Concrete well-formed input for the C4 witness. -/
def c4Good : String :=
  "#h hdr\n1\t100\t1\t1000.0\t2000.0\t5000.0\t6000.0\t+\t15.0\t1M\t2000.0\t250000.0\n"

/-- The ParsedFile `c4Good` parses to. -/
def c4GoodParsed : ParsedFile :=
  ⟨[(1, ⟨1, 100, 1, 1000, 2000, 5000, 6000, '+', 15, 250000⟩)], [(1, 250000)]⟩

theorem c4_record_count_witness :
    parse_xmap_file c4Good = Except.ok c4GoodParsed
  ∧ c4GoodParsed.records.length =
      ((dataLines c4Good).filterMap lineEntryId).toFinset.card
  ∧ c4GoodParsed.records.length =
      (dataLines c4Good).length -
        ((dataLines c4Good).filter shortLine).length :=
  ⟨by decide, (c4_record_count c4Good c4GoodParsed (by decide)).1,
    (c4_record_count c4Good c4GoodParsed (by decide)).2 (by decide)⟩

/-! ## Contig Indexer (build_index) -/

/-- One iteration of `build_index`: fetch or create the bucket for the
record's query-contig id (`index.entry(qry_id).or_insert_with(...)`) and
insert the record into it keyed by its entry id. -/
def indexStep (idx : List (Nat × List (Nat × XmapRecord))) (r : XmapRecord) :
    List (Nat × List (Nat × XmapRecord)) :=
  match mapLookup r.qry_contig_id idx with
  | some bucket =>
      mapInsert r.qry_contig_id (mapInsert r.xmap_entry_id r bucket) idx
  | none => mapInsert r.qry_contig_id (mapInsert r.xmap_entry_id r []) idx

/-- `build_index`: maps query contig IDs to the records sharing them; the
iteration runs over the values of the records map. -/
def build_index (records : List (Nat × XmapRecord)) :
    List (Nat × List (Nat × XmapRecord)) :=
  (records.map Prod.snd).foldl indexStep []

/-- Invariant of the `build_index` fold: keys are pairwise distinct, every
bucket entry is a processed record keyed by its entry id in the bucket of its
own query-contig id, and every processed record is present in its bucket. -/
def IndexInv (idx : List (Nat × List (Nat × XmapRecord)))
    (processed : List XmapRecord) : Prop :=
  (mapKeys idx).Nodup ∧
  (∀ q b, mapLookup q idx = some b →
      (mapKeys b).Nodup ∧
      ∀ p ∈ b, p.1 = p.2.xmap_entry_id ∧ p.2.qry_contig_id = q ∧ p.2 ∈ processed) ∧
  (∀ r ∈ processed,
      ∃ b, mapLookup r.qry_contig_id idx = some b ∧ (r.xmap_entry_id, r) ∈ b)

theorem indexStep_inv {idx : List (Nat × List (Nat × XmapRecord))}
    {processed : List XmapRecord} (r : XmapRecord)
    (hfresh : ∀ r2 ∈ processed, r2.xmap_entry_id ≠ r.xmap_entry_id)
    (hinv : IndexInv idx processed) :
    IndexInv (indexStep idx r) (processed ++ [r]) := by
  rcases hinv with ⟨hnd, hbkt, hall⟩
  have hmemInsert : ∀ (b : List (Nat × XmapRecord)),
      (∀ p ∈ b, p.1 = p.2.xmap_entry_id ∧ p.2.qry_contig_id = r.qry_contig_id ∧
        p.2 ∈ processed) →
      ∀ p ∈ mapInsert r.xmap_entry_id r b,
        p.1 = p.2.xmap_entry_id ∧ p.2.qry_contig_id = r.qry_contig_id ∧
          p.2 ∈ processed ++ [r] := by
    intro b hb p hp
    rcases List.mem_cons.mp hp with h1 | h2
    · subst h1
      exact ⟨rfl, rfl, List.mem_append.mpr (Or.inr (List.mem_singleton.mpr rfl))⟩
    · rcases hb p (List.mem_of_mem_filter h2) with ⟨e1, e2, e3⟩
      exact ⟨e1, e2, List.mem_append.mpr (Or.inl e3)⟩
  cases hb : mapLookup r.qry_contig_id idx with
  | some bucket =>
    have hbprops := hbkt r.qry_contig_id bucket hb
    refine ⟨?_, ?_, ?_⟩
    · simp only [indexStep, hb]
      exact mapKeys_insert_nodup _ _ hnd
    · intro q b2 hq
      simp only [indexStep, hb] at hq
      by_cases hqq : q = r.qry_contig_id
      · subst hqq
        rw [mapLookup_insert_self] at hq
        cases hq
        refine ⟨mapKeys_insert_nodup _ _ hbprops.1, ?_⟩
        exact hmemInsert bucket (fun p hp => hbprops.2 p hp)
      · rw [mapLookup_insert_ne _ _ _ _ hqq] at hq
        rcases hbkt q b2 hq with ⟨k1, k2⟩
        exact ⟨k1, fun p hp => by
          rcases k2 p hp with ⟨e1, e2, e3⟩
          exact ⟨e1, e2, List.mem_append.mpr (Or.inl e3)⟩⟩
    · intro r2 hr2
      rcases List.mem_append.mp hr2 with h1 | h2
      · rcases hall r2 h1 with ⟨b, hb2, hmem⟩
        by_cases hqq : r2.qry_contig_id = r.qry_contig_id
        · have hb2q : mapLookup r.qry_contig_id idx = some b := hqq ▸ hb2
          have hbb : b = bucket := Option.some.inj (hb2q.symm.trans hb)
          rw [hbb] at hmem
          refine ⟨mapInsert r.xmap_entry_id r bucket, ?_, ?_⟩
          · show mapLookup r2.qry_contig_id (indexStep idx r) = _
            rw [hqq]
            simp only [indexStep, hb]
            exact mapLookup_insert_self _ _ _
          · have hne : r2.xmap_entry_id ≠ r.xmap_entry_id := hfresh r2 h1
            exact List.mem_cons.mpr (Or.inr (List.mem_filter.mpr
              ⟨hmem, by simp [hne]⟩))
        · refine ⟨b, ?_, hmem⟩
          simp only [indexStep, hb]
          rw [mapLookup_insert_ne _ _ _ _ hqq]
          exact hb2
      · have h1 : r2 = r := List.mem_singleton.mp h2
        subst h1
        refine ⟨mapInsert r2.xmap_entry_id r2 bucket, ?_, ?_⟩
        · simp only [indexStep, hb]
          exact mapLookup_insert_self _ _ _
        · exact List.mem_cons.mpr (Or.inl rfl)
  | none =>
    refine ⟨?_, ?_, ?_⟩
    · simp only [indexStep, hb]
      exact mapKeys_insert_nodup _ _ hnd
    · intro q b2 hq
      simp only [indexStep, hb] at hq
      by_cases hqq : q = r.qry_contig_id
      · subst hqq
        rw [mapLookup_insert_self] at hq
        cases hq
        refine ⟨mapKeys_insert_nodup _ _ (by simp [mapKeys]), ?_⟩
        exact hmemInsert [] (by simp)
      · rw [mapLookup_insert_ne _ _ _ _ hqq] at hq
        rcases hbkt q b2 hq with ⟨k1, k2⟩
        exact ⟨k1, fun p hp => by
          rcases k2 p hp with ⟨e1, e2, e3⟩
          exact ⟨e1, e2, List.mem_append.mpr (Or.inl e3)⟩⟩
    · intro r2 hr2
      rcases List.mem_append.mp hr2 with h1 | h2
      · rcases hall r2 h1 with ⟨b, hb2, hmem⟩
        have hqq : r2.qry_contig_id ≠ r.qry_contig_id := by
          intro hcontra
          rw [hcontra, hb] at hb2
          cases hb2
        refine ⟨b, ?_, hmem⟩
        simp only [indexStep, hb]
        rw [mapLookup_insert_ne _ _ _ _ hqq]
        exact hb2
      · have h1 : r2 = r := List.mem_singleton.mp h2
        subst h1
        refine ⟨mapInsert r2.xmap_entry_id r2 [], ?_, ?_⟩
        · simp only [indexStep, hb]
          exact mapLookup_insert_self _ _ _
        · exact List.mem_cons.mpr (Or.inl rfl)

theorem build_index_go {vals : List XmapRecord}
    {idx : List (Nat × List (Nat × XmapRecord))} {processed : List XmapRecord}
    (hfresh : ∀ r ∈ vals, ∀ r2 ∈ processed, r2.xmap_entry_id ≠ r.xmap_entry_id)
    (hvals : (vals.map (fun r => r.xmap_entry_id)).Nodup)
    (hinv : IndexInv idx processed) :
    IndexInv (vals.foldl indexStep idx) (processed ++ vals) := by
  induction vals generalizing idx processed with
  | nil => simpa using hinv
  | cons r rest ih =>
    rw [List.foldl_cons]
    have hstep := indexStep_inv r
      (hfresh r (List.mem_cons_self r rest)) hinv
    simp only [List.map_cons, List.nodup_cons] at hvals
    have hfresh2 : ∀ r3 ∈ rest, ∀ r2 ∈ processed ++ [r],
        r2.xmap_entry_id ≠ r3.xmap_entry_id := by
      intro r3 h3 r2 h2
      rcases List.mem_append.mp h2 with ha | hb
      · exact hfresh r3 (List.mem_cons_of_mem r h3) r2 ha
      · have : r2 = r := List.mem_singleton.mp hb
        subst this
        intro hcontra
        exact hvals.1 (List.mem_map.mpr ⟨r3, h3, hcontra.symm⟩)
    have := ih hfresh2 hvals.2 hstep
    rwa [List.append_assoc, List.singleton_append] at this

/-! ## C8 -/

/-- C8: on a well-formed record collection (keys pairwise distinct, each
record stored under its own entry id, as `parse_xmap_file` produces), the
index built by `build_index` is a partition: a pair (entry id, record) lies
in some bucket iff it lies in the record collection, bucket keys are pairwise
distinct, and each record appears only in the bucket keyed by its own
query-contig id. -/
theorem c8_build_index_partition (records : List (Nat × XmapRecord))
    (hkeys : (mapKeys records).Nodup)
    (hid : ∀ p ∈ records, p.1 = p.2.xmap_entry_id) :
    (∀ (e : Nat) (r : XmapRecord),
        (∃ q b, mapLookup q (build_index records) = some b ∧ (e, r) ∈ b)
          ↔ (e, r) ∈ records)
  ∧ (mapKeys (build_index records)).Nodup
  ∧ (∀ q b, mapLookup q (build_index records) = some b →
        ∀ p ∈ b, p.2.qry_contig_id = q ∧ p.1 = p.2.xmap_entry_id) := by
  have hvals : ((records.map Prod.snd).map (fun r => r.xmap_entry_id)).Nodup := by
    rw [List.map_map]
    rw [show ((fun r => r.xmap_entry_id) ∘ Prod.snd) =
        (fun p : Nat × XmapRecord => p.2.xmap_entry_id) from rfl]
    have h2 : records.map (fun p : Nat × XmapRecord => p.2.xmap_entry_id) =
        records.map Prod.fst := by
      apply List.map_congr_left
      intro p hp
      exact (hid p hp).symm
    rw [h2]
    exact hkeys
  have hempty : IndexInv [] [] := by
    refine ⟨by simp [mapKeys], ?_, ?_⟩
    · intro q b hq
      simp [mapLookup] at hq
    · intro r hr
      simp at hr
  have hinv := build_index_go
    (by intro r _ r2 h2; simp at h2 : ∀ r ∈ records.map Prod.snd,
      ∀ r2 ∈ ([] : List XmapRecord), r2.xmap_entry_id ≠ r.xmap_entry_id)
    hvals hempty
  rw [List.nil_append] at hinv
  rcases hinv with ⟨hnd, hbkt, hall⟩
  refine ⟨?_, hnd, ?_⟩
  · intro e r
    constructor
    · rintro ⟨q, b, hq, hmem⟩
      rcases hbkt q b hq with ⟨_, hprops⟩
      rcases hprops (e, r) hmem with ⟨h1, _h2, h3⟩
      rcases List.mem_map.mp h3 with ⟨p, hp, hpr⟩
      have : p = (e, r) := by
        have he : p.1 = e := by
          rw [hid p hp, hpr, ← h1]
        exact Prod.ext he hpr
      rw [← this]
      exact hp
    · intro hmem
      have hr : r ∈ records.map Prod.snd := List.mem_map.mpr ⟨(e, r), hmem, rfl⟩
      rcases hall r hr with ⟨b, hq, hb⟩
      have he : e = r.xmap_entry_id := hid (e, r) hmem
      exact ⟨r.qry_contig_id, b, hq, by rw [he]; exact hb⟩
  · intro q b hq p hp
    rcases hbkt q b hq with ⟨_, hprops⟩
    rcases hprops p hp with ⟨h1, h2, _⟩
    exact ⟨h2, h1⟩

/-- Concrete records for the C8 witness: two records sharing query-contig id
100 and one with id 200, stored under their entry ids. -/
def c8Records : List (Nat × XmapRecord) :=
  [(1, ⟨1, 100, 1, 10, 20, 30, 40, '+', 5, 7⟩),
   (2, ⟨2, 100, 2, 11, 21, 31, 41, '-', 6, 8⟩),
   (3, ⟨3, 200, 3, 12, 22, 32, 42, '+', 7, 9⟩)]

theorem c8_build_index_partition_witness :
    (mapKeys (build_index c8Records)).Nodup
  ∧ ((1, ⟨1, 100, 1, 10, 20, 30, 40, '+', 5, 7⟩) ∈ c8Records ↔
      (∃ q b, mapLookup q (build_index c8Records) = some b ∧
        (1, (⟨1, 100, 1, 10, 20, 30, 40, '+', 5, 7⟩ : XmapRecord)) ∈ b)) :=
  ⟨(c8_build_index_partition c8Records (by decide) (by decide)).2.1,
    ((c8_build_index_partition c8Records (by decide) (by decide)).1
      1 ⟨1, 100, 1, 10, 20, 30, 40, '+', 5, 7⟩).symm⟩

/-! ## Pairwise Match Engine (stream_matches_multi)

The worker pool, work queue chunking and channel of the source affect only
the order in which matches are emitted; the spec leaves the order
unconstrained ("consumers must treat it as a multiset"), so the engine is
embedded as the function producing the list of emitted matches, one pair of
files after the other, file i's query-contig groups in grouping order. -/

/-- `MatchedRecord` built from a record of file `fi`
(the struct literal in the worker loop). -/
def toMatchedRecord (fi : Nat) (r : XmapRecord) : MatchedRecord :=
  { file_index := fi, ref_contig_id := r.ref_contig_id,
    qry_start_pos := r.qry_start_pos, qry_end_pos := r.qry_end_pos,
    ref_start_pos := r.ref_start_pos, ref_end_pos := r.ref_end_pos,
    orientation := r.orientation, confidence := r.confidence,
    ref_len := r.ref_len }

/-- One step of building a per-pair grouping table
(`qry_groups.entry(record.qry_contig_id).or_insert_with(Vec::new).push(...)`). -/
def groupInsert (g : List (Nat × List XmapRecord)) (r : XmapRecord) :
    List (Nat × List XmapRecord) :=
  match mapLookup r.qry_contig_id g with
  | some v => mapInsert r.qry_contig_id (v ++ [r]) g
  | none => mapInsert r.qry_contig_id [r] g

/-- Group a file's records by query contig id (iterating the values of the
records map). -/
def groupByQry (records : List (Nat × XmapRecord)) :
    List (Nat × List XmapRecord) :=
  (records.map Prod.snd).foldl groupInsert []

/-- The match emitted for one query-contig id of pair `(fi, fj)`: one
`file_indices` entry and one `MatchedRecord` are pushed per record of file i,
then per record of file j. -/
def mkMatch (fi fj qid : Nat) (ri rj : List XmapRecord) : XmapMatch :=
  { qry_contig_id := qid,
    file_indices := ri.map (fun _ => fi) ++ rj.map (fun _ => fj),
    records := ri.map (toMatchedRecord fi) ++ rj.map (toMatchedRecord fj) }

/-- All matches of one file pair: walk file i's groups and probe file j's
grouping table; a match is emitted when the probe hits. -/
def matchesForPair (fi fj : Nat) (recsI recsJ : List (Nat × XmapRecord)) :
    List XmapMatch :=
  let gj := groupByQry recsJ
  (groupByQry recsI).filterMap (fun p =>
    match mapLookup p.1 gj with
    | some rj => some (mkMatch fi fj p.1 p.2 rj)
    | none => none)

/-- All unordered file pairs `(i, j)`, `i < j`, in the enumeration order of
the source's nested loops. -/
def filePairs (n : Nat) : List (Nat × Nat) :=
  (List.range n).flatMap (fun i =>
    (List.range n).filterMap (fun j => if i < j then some (i, j) else none))

/-- `stream_matches_multi`: with fewer than 2 files the stream is empty;
otherwise every pair's matches are emitted. -/
def stream_matches_multi (files : List (List (Nat × XmapRecord))) :
    List XmapMatch :=
  if files.length < 2 then []
  else (filePairs files.length).flatMap (fun p =>
    matchesForPair p.1 p.2 (files.getD p.1 []) (files.getD p.2 []))

/-- The records of a file carrying a given query-contig id, in file order. -/
def qryFilter (q : Nat) (records : List (Nat × XmapRecord)) : List XmapRecord :=
  ((records.map Prod.snd).filter (fun r => decide (r.qry_contig_id = q)))

theorem groupBy_go_lookup (vals : List XmapRecord)
    (g : List (Nat × List XmapRecord)) (q : Nat) :
    mapLookup q (vals.foldl groupInsert g) =
      match mapLookup q g with
      | some v =>
          some (v ++ vals.filter (fun r => decide (r.qry_contig_id = q)))
      | none =>
          if (vals.filter (fun r => decide (r.qry_contig_id = q))).isEmpty
          then none
          else some (vals.filter (fun r => decide (r.qry_contig_id = q))) := by
  induction vals generalizing g with
  | nil =>
    cases hg : mapLookup q g <;> simp [hg]
  | cons r rest ih =>
    rw [List.foldl_cons]
    by_cases hq : r.qry_contig_id = q
    · have hfil : (r :: rest).filter (fun r2 => decide (r2.qry_contig_id = q)) =
          r :: rest.filter (fun r2 => decide (r2.qry_contig_id = q)) := by
        rw [List.filter_cons, if_pos (by simp [hq])]
      cases hg : mapLookup q g with
      | some v =>
        have hg2 : mapLookup r.qry_contig_id g = some v := by rw [hq]; exact hg
        have hstep : groupInsert g r = mapInsert r.qry_contig_id (v ++ [r]) g := by
          simp [groupInsert, hg2]
        rw [hstep, ih]
        have hl : mapLookup q (mapInsert r.qry_contig_id (v ++ [r]) g) =
            some (v ++ [r]) := by
          rw [hq]
          exact mapLookup_insert_self _ _ _
        rw [hl, hfil]
        simp
      | none =>
        have hg2 : mapLookup r.qry_contig_id g = none := by rw [hq]; exact hg
        have hstep : groupInsert g r = mapInsert r.qry_contig_id [r] g := by
          simp [groupInsert, hg2]
        rw [hstep, ih]
        have hl : mapLookup q (mapInsert r.qry_contig_id [r] g) = some [r] := by
          rw [hq]
          exact mapLookup_insert_self _ _ _
        rw [hl, hfil]
        simp
    · have hfil : (r :: rest).filter (fun r2 => decide (r2.qry_contig_id = q)) =
          rest.filter (fun r2 => decide (r2.qry_contig_id = q)) := by
        rw [List.filter_cons, if_neg (by simp [hq])]
      have hl : mapLookup q (groupInsert g r) = mapLookup q g := by
        have hqr : q ≠ r.qry_contig_id := fun hc => hq hc.symm
        cases hg2 : mapLookup r.qry_contig_id g with
        | some v =>
          simp only [groupInsert, hg2]
          exact mapLookup_insert_ne _ _ _ _ hqr
        | none =>
          simp only [groupInsert, hg2]
          exact mapLookup_insert_ne _ _ _ _ hqr
      rw [ih, hl, hfil]

theorem groupByQry_lookup (records : List (Nat × XmapRecord)) (q : Nat) :
    mapLookup q (groupByQry records) =
      if (qryFilter q records).isEmpty then none
      else some (qryFilter q records) := by
  show mapLookup q ((records.map Prod.snd).foldl groupInsert []) = _
  rw [groupBy_go_lookup]
  rfl

theorem groupByQry_keys_nodup (records : List (Nat × XmapRecord)) :
    (mapKeys (groupByQry records)).Nodup := by
  show (mapKeys ((records.map Prod.snd).foldl groupInsert [])).Nodup
  generalize (records.map Prod.snd) = vals
  have h0 : (mapKeys ([] : List (Nat × List XmapRecord))).Nodup := by
    simp [mapKeys]
  generalize hg : ([] : List (Nat × List XmapRecord)) = g at h0 ⊢
  clear hg
  induction vals generalizing g with
  | nil => exact h0
  | cons r rest ih =>
    rw [List.foldl_cons]
    apply ih
    cases hg2 : mapLookup r.qry_contig_id g with
    | some v =>
      simp only [groupInsert, hg2]
      exact mapKeys_insert_nodup _ _ h0
    | none =>
      simp only [groupInsert, hg2]
      exact mapKeys_insert_nodup _ _ h0

theorem qryFilter_ne_nil (q : Nat) (records : List (Nat × XmapRecord)) :
    qryFilter q records ≠ [] ↔ ∃ p ∈ records, p.2.qry_contig_id = q := by
  constructor
  · intro hne
    rcases List.exists_mem_of_ne_nil _ hne with ⟨r, hr⟩
    rcases List.mem_filter.mp hr with ⟨hmem, hpred⟩
    rcases List.mem_map.mp hmem with ⟨p, hp, hpr⟩
    exact ⟨p, hp, by rw [hpr]; exact of_decide_eq_true hpred⟩
  · rintro ⟨p, hp, hq⟩
    intro hnil
    have : p.2 ∈ qryFilter q records := List.mem_filter.mpr
      ⟨List.mem_map.mpr ⟨p, hp, rfl⟩, by simp [hq]⟩
    rw [hnil] at this
    exact absurd this (List.not_mem_nil p.2)

theorem mem_matchesForPair {fi fj : Nat} {recsI recsJ : List (Nat × XmapRecord)}
    {m : XmapMatch} :
    m ∈ matchesForPair fi fj recsI recsJ ↔
      ∃ q, qryFilter q recsI ≠ [] ∧ qryFilter q recsJ ≠ [] ∧
        m = mkMatch fi fj q (qryFilter q recsI) (qryFilter q recsJ) := by
  constructor
  · intro hm
    rcases List.mem_filterMap.mp hm with ⟨p, hp, hf⟩
    have hLook : mapLookup p.1 (groupByQry recsI) = some p.2 :=
      mem_mapLookup_of_nodup (groupByQry_keys_nodup recsI)
        (by cases p; exact hp)
    rw [groupByQry_lookup] at hLook
    by_cases hempI : (qryFilter p.1 recsI).isEmpty
    · rw [if_pos hempI] at hLook
      cases hLook
    · rw [if_neg hempI] at hLook
      have hpI : p.2 = qryFilter p.1 recsI := (Option.some.inj hLook).symm
      cases hgj : mapLookup p.1 (groupByQry recsJ) with
      | none =>
        rw [hgj] at hf
        cases hf
      | some rj =>
        rw [hgj] at hf
        have hm2 : m = mkMatch fi fj p.1 p.2 rj := (Option.some.inj hf).symm
        rw [groupByQry_lookup] at hgj
        by_cases hempJ : (qryFilter p.1 recsJ).isEmpty
        · rw [if_pos hempJ] at hgj
          cases hgj
        · rw [if_neg hempJ] at hgj
          have hpJ : rj = qryFilter p.1 recsJ := (Option.some.inj hgj).symm
          refine ⟨p.1, ?_, ?_, ?_⟩
          · intro hc
            exact hempI (by rw [hc]; rfl)
          · intro hc
            exact hempJ (by rw [hc]; rfl)
          · rw [hm2, hpI, hpJ]
  · rintro ⟨q, hqi, hqj, hm⟩
    apply List.mem_filterMap.mpr
    refine ⟨(q, qryFilter q recsI), ?_, ?_⟩
    · apply mapLookup_mem
      rw [groupByQry_lookup,
        if_neg (fun hc => hqi (List.isEmpty_iff.mp hc))]
    · rw [groupByQry_lookup,
        if_neg (fun hc => hqj (List.isEmpty_iff.mp hc))]
      rw [hm]

theorem mem_filePairs {n i j : Nat} : (i, j) ∈ filePairs n ↔ i < j ∧ j < n := by
  simp only [filePairs, List.mem_flatMap, List.mem_filterMap, List.mem_range]
  constructor
  · rintro ⟨a, _ha, b, hb, heq⟩
    by_cases hab : a < b
    · rw [if_pos hab] at heq
      have h1 := Option.some.inj heq
      rw [Prod.mk.injEq] at h1
      rw [← h1.1, ← h1.2]
      exact ⟨hab, hb⟩
    · rw [if_neg hab] at heq
      cases heq
  · rintro ⟨hij, hj⟩
    exact ⟨i, lt_trans hij hj, j, hj, by rw [if_pos hij]⟩

theorem mem_stream_iff {files : List (List (Nat × XmapRecord))} {m : XmapMatch}
    (hn : 2 ≤ files.length) :
    m ∈ stream_matches_multi files ↔
      ∃ a b, (a, b) ∈ filePairs files.length ∧
        m ∈ matchesForPair a b (files.getD a []) (files.getD b []) := by
  rw [stream_matches_multi, if_neg (Nat.not_lt.mpr hn)]
  simp only [List.mem_flatMap]
  constructor
  · rintro ⟨p, hp, hm⟩
    exact ⟨p.1, p.2, by cases p; exact hp, hm⟩
  · rintro ⟨a, b, hp, hm⟩
    exact ⟨(a, b), hp, hm⟩

theorem mkMatch_file_indices_mem {fi fj q : Nat} {ri rj : List XmapRecord}
    (hi : ri ≠ []) (hj : rj ≠ []) (x : Nat) :
    x ∈ (mkMatch fi fj q ri rj).file_indices ↔ (x = fi ∨ x = fj) := by
  simp only [mkMatch, List.mem_append, List.mem_map]
  constructor
  · rintro (⟨r, _, rfl⟩ | ⟨r, _, rfl⟩)
    · exact Or.inl rfl
    · exact Or.inr rfl
  · rintro (rfl | rfl)
    · rcases List.exists_mem_of_ne_nil _ hi with ⟨r, hr⟩
      exact Or.inl ⟨r, hr, rfl⟩
    · rcases List.exists_mem_of_ne_nil _ hj with ⟨r, hr⟩
      exact Or.inr ⟨r, hr, rfl⟩

/-! ## C1, C2, C7 -/

theorem stream_match_structure {files : List (List (Nat × XmapRecord))}
    {m : XmapMatch} {i j qid : Nat}
    (hn : 2 ≤ files.length) (hij : i < j)
    (hm : m ∈ stream_matches_multi files) (hq : m.qry_contig_id = qid)
    (hi : i ∈ m.file_indices) (hj2 : j ∈ m.file_indices) :
    qryFilter qid (files.getD i []) ≠ [] ∧
    qryFilter qid (files.getD j []) ≠ [] ∧
    m = mkMatch i j qid (qryFilter qid (files.getD i []))
          (qryFilter qid (files.getD j [])) := by
  rcases (mem_stream_iff hn).mp hm with ⟨a, b, hpair, hmp⟩
  rcases mem_matchesForPair.mp hmp with ⟨q, hqa, hqb, hmk⟩
  have hqq : q = qid := by
    rw [hmk] at hq
    exact hq
  subst hqq
  rcases mem_filePairs.mp hpair with ⟨hab, _hbn⟩
  have hiab : i = a ∨ i = b :=
    (mkMatch_file_indices_mem hqa hqb i).mp (by rw [hmk] at hi; exact hi)
  have hjab : j = a ∨ j = b :=
    (mkMatch_file_indices_mem hqa hqb j).mp (by rw [hmk] at hj2; exact hj2)
  have hfix : i = a ∧ j = b := by
    rcases hiab with h1 | h1 <;> rcases hjab with h2 | h2 <;> omega
  rcases hfix with ⟨h1, h2⟩
  subst h1
  subst h2
  exact ⟨hqa, hqb, hmk⟩

/-- C1: for every file set with at least 2 files, every pair i < j and every
query-contig id, a match carrying that id and referencing both i and j is
emitted iff at least one record with that id exists in EACH of the two files
(so an id present in only one file yields no match for the pair), and every
such match lists every record of file i tagged with index i followed by every
record of file j tagged with index j. -/
theorem c1_pairwise_match_iff_intersection
    (files : List (List (Nat × XmapRecord))) (i j qid : Nat)
    (hn : 2 ≤ files.length) (hij : i < j) (hj : j < files.length) :
    ((∃ m ∈ stream_matches_multi files, m.qry_contig_id = qid ∧
        i ∈ m.file_indices ∧ j ∈ m.file_indices) ↔
      ((∃ p ∈ files.getD i [], p.2.qry_contig_id = qid) ∧
       (∃ p ∈ files.getD j [], p.2.qry_contig_id = qid)))
  ∧ (∀ m ∈ stream_matches_multi files, m.qry_contig_id = qid →
      i ∈ m.file_indices → j ∈ m.file_indices →
      m.records =
        (qryFilter qid (files.getD i [])).map (toMatchedRecord i) ++
        (qryFilter qid (files.getD j [])).map (toMatchedRecord j)) := by
  constructor
  · constructor
    · rintro ⟨m, hm, hq, hi, hj2⟩
      rcases stream_match_structure hn hij hm hq hi hj2 with ⟨h1, h2, _⟩
      exact ⟨(qryFilter_ne_nil qid _).mp h1, (qryFilter_ne_nil qid _).mp h2⟩
    · rintro ⟨hA, hB⟩
      have hne1 : qryFilter qid (files.getD i []) ≠ [] :=
        (qryFilter_ne_nil qid _).mpr hA
      have hne2 : qryFilter qid (files.getD j []) ≠ [] :=
        (qryFilter_ne_nil qid _).mpr hB
      refine ⟨mkMatch i j qid (qryFilter qid (files.getD i []))
        (qryFilter qid (files.getD j [])), ?_, rfl, ?_, ?_⟩
      · exact (mem_stream_iff hn).mpr ⟨i, j, mem_filePairs.mpr ⟨hij, hj⟩,
          mem_matchesForPair.mpr ⟨qid, hne1, hne2, rfl⟩⟩
      · exact (mkMatch_file_indices_mem hne1 hne2 i).mpr (Or.inl rfl)
      · exact (mkMatch_file_indices_mem hne1 hne2 j).mpr (Or.inr rfl)
  · intro m hm hq hi hj2
    rcases stream_match_structure hn hij hm hq hi hj2 with ⟨_, _, hmk⟩
    rw [hmk]
    rfl

/-- Records used by the concrete match-engine scenarios. -/
def recA : XmapRecord := ⟨1, 100, 1, 1000, 2000, 5000, 6000, '+', 15, 250000⟩

def recB : XmapRecord := ⟨2, 100, 2, 1100, 2100, 5100, 6100, '-', 14, 250000⟩

def recC : XmapRecord := ⟨10, 100, 3, 1500, 2500, 9000, 10000, '+', 16, 250000⟩

def recD : XmapRecord := ⟨20, 100, 3, 2000, 3000, 9000, 10000, '-', 17, 250000⟩

/-- Two files: file 0 has two records with query-contig id 100, file 1 one. -/
def twoFiles : List (List (Nat × XmapRecord)) :=
  [[(1, recA), (2, recB)], [(10, recC)]]

theorem c1_pairwise_match_iff_intersection_witness :
    (2 ≤ twoFiles.length ∧ (0 : Nat) < 1 ∧ 1 < twoFiles.length)
  ∧ ((∃ m ∈ stream_matches_multi twoFiles, m.qry_contig_id = 100 ∧
        0 ∈ m.file_indices ∧ 1 ∈ m.file_indices) ↔
      ((∃ p ∈ twoFiles.getD 0 [], p.2.qry_contig_id = 100) ∧
       (∃ p ∈ twoFiles.getD 1 [], p.2.qry_contig_id = 100))) :=
  ⟨⟨by decide, by decide, by decide⟩,
    (c1_pairwise_match_iff_intersection twoFiles 0 1 100
      (by decide) (by decide) (by decide)).1⟩

/-- Three files, each with one record carrying query-contig id 100. -/
def threeFiles : List (List (Nat × XmapRecord)) :=
  [[(1, recA)], [(10, recC)], [(20, recD)]]

/-- C2: over the three-file set in which contig id 100 appears once per file,
the engine emits exactly 3 matches, one per pair (0,1), (0,2), (1,2), each
referencing exactly 2 files — never one merged 3-way match. -/
theorem c2_three_files_three_pairwise_matches :
    (stream_matches_multi threeFiles).map
        (fun m => (m.qry_contig_id, m.file_indices)) =
      [(100, [0, 1]), (100, [0, 2]), (100, [1, 2])]
  ∧ (stream_matches_multi threeFiles).length = 3
  ∧ (stream_matches_multi threeFiles).all
      (fun m => decide (m.file_indices.length = 2)) := by
  refine ⟨by decide, by decide, by decide⟩

/-- C7 (amended): every emitted match's `file_indices` has ONE entry per
contributing record (the source file index of the record at the same
position), so its underlying set is exactly the two file indices of the
pair; `records` has one MatchedRecord per contributing physical record. -/
theorem c7_match_shape (files : List (List (Nat × XmapRecord)))
    (m : XmapMatch) (hm : m ∈ stream_matches_multi files) :
    m.file_indices = m.records.map MatchedRecord.file_index
  ∧ ∃ i j, i < j ∧ j < files.length ∧
      (∀ x, x ∈ m.file_indices ↔ (x = i ∨ x = j)) ∧
      m.records =
        (qryFilter m.qry_contig_id (files.getD i [])).map (toMatchedRecord i) ++
        (qryFilter m.qry_contig_id (files.getD j [])).map (toMatchedRecord j) := by
  by_cases hn : 2 ≤ files.length
  · rcases (mem_stream_iff hn).mp hm with ⟨a, b, hpair, hmp⟩
    rcases mem_matchesForPair.mp hmp with ⟨q, hqa, hqb, hmk⟩
    rcases mem_filePairs.mp hpair with ⟨hab, hbn⟩
    have hq : m.qry_contig_id = q := by rw [hmk]; rfl
    constructor
    · rw [hmk]
      show _ = ((qryFilter q _).map (toMatchedRecord a) ++
          (qryFilter q _).map (toMatchedRecord b)).map MatchedRecord.file_index
      rw [List.map_append, List.map_map, List.map_map]
      rfl
    · refine ⟨a, b, hab, hbn, ?_, ?_⟩
      · intro x
        rw [hmk]
        exact mkMatch_file_indices_mem hqa hqb x
      · rw [hq, hmk]
        rfl
  · rw [stream_matches_multi, if_pos (Nat.lt_of_not_le hn)] at hm
    exact absurd hm (List.not_mem_nil m)

/-- C7 counterexample: with two records of contig 100 in file 0 and one in
file 1, the single emitted match has `file_indices = [0, 0, 1]` — file index
0 appears once per contributing record, not "each once". -/
theorem c7_file_indices_counterexample :
    (stream_matches_multi twoFiles).map (fun m => m.file_indices) =
      [[0, 0, 1]] := by
  decide

theorem c7_match_shape_witness :
    (mkMatch 0 1 100 [recA, recB] [recC]) ∈ stream_matches_multi twoFiles
  ∧ (mkMatch 0 1 100 [recA, recB] [recC]).file_indices =
      (mkMatch 0 1 100 [recA, recB] [recC]).records.map
        MatchedRecord.file_index :=
  ⟨by decide,
    (c7_match_shape twoFiles (mkMatch 0 1 100 [recA, recB] [recC])
      (by decide)).1⟩

/-! ## Result Cache (XmapCache) -/

/-- `XmapCache`: the two maps `get_or_parse` touches, keyed by content hash.
(The `indices` and `match_cache` members are embedded separately where the
claims need them.) -/
structure XmapCache where
  parsed_files : List (Nat × List (Nat × XmapRecord))
  chromosome_lengths : List (Nat × List (Nat × Rat))
deriving DecidableEq

/-- The miss path of `get_or_parse`: parse, and only on success insert into
both maps (`parse_xmap_file(content)?` returns before any insert on error). -/
def getOrParseMiss (c : XmapCache) (hash : Nat) (content : String) :
    Except String (List (Nat × XmapRecord) × List (Nat × Rat)) × XmapCache :=
  match parse_xmap_file content with
  | Except.error e => (Except.error e, c)
  | Except.ok pf =>
      (Except.ok (pf.records, pf.chromosome_lengths),
       ⟨mapInsert hash pf.records c.parsed_files,
        mapInsert hash pf.chromosome_lengths c.chromosome_lengths⟩)

/-- `XmapCache::get_or_parse`: return the cached pair when BOTH maps contain
the hash, otherwise parse and (on success) store; the updated cache is
returned alongside the result, modelling the in-place inserts. -/
def get_or_parse (c : XmapCache) (hash : Nat) (content : String) :
    Except String (List (Nat × XmapRecord) × List (Nat × Rat)) × XmapCache :=
  match mapLookup hash c.parsed_files with
  | some recs =>
    match mapLookup hash c.chromosome_lengths with
    | some lens => (Except.ok (recs, lens), c)
    | none => getOrParseMiss c hash content
  | none => getOrParseMiss c hash content

/-! ## C6 -/

/-- C6: `get_or_parse` returns the cached ParsedFile when one is present for
the hash (both maps populated) leaving the cache unchanged; otherwise it
parses the content and, on success, stores and returns the result; and after
any successful call, a second call with the same hash returns the very same
result and cache for EVERY content argument — in particular it performs no
re-parsing. -/
theorem c6_get_or_parse_compute_or_fetch (c : XmapCache) (hash : Nat)
    (content : String) :
    (∀ recs lens, mapLookup hash c.parsed_files = some recs →
        mapLookup hash c.chromosome_lengths = some lens →
        get_or_parse c hash content = (Except.ok (recs, lens), c))
  ∧ ((mapLookup hash c.parsed_files = none ∨
        mapLookup hash c.chromosome_lengths = none) →
      ∀ pf, parse_xmap_file content = Except.ok pf →
        get_or_parse c hash content =
          (Except.ok (pf.records, pf.chromosome_lengths),
           ⟨mapInsert hash pf.records c.parsed_files,
            mapInsert hash pf.chromosome_lengths c.chromosome_lengths⟩))
  ∧ (∀ res c2, get_or_parse c hash content = (Except.ok res, c2) →
      ∀ content2, get_or_parse c2 hash content2 = (Except.ok res, c2)) := by
  refine ⟨?_, ?_, ?_⟩
  · intro recs lens h1 h2
    simp [get_or_parse, h1, h2]
  · intro hmiss pf hpf
    rcases hmiss with h | h
    · simp [get_or_parse, h, getOrParseMiss, hpf]
    · cases h1 : mapLookup hash c.parsed_files with
      | some recs => simp [get_or_parse, h1, h, getOrParseMiss, hpf]
      | none => simp [get_or_parse, h1, getOrParseMiss, hpf]
  · intro res c2 heq content2
    cases h1 : mapLookup hash c.parsed_files with
    | some recs =>
      cases h2 : mapLookup hash c.chromosome_lengths with
      | some lens =>
        rw [show get_or_parse c hash content = (Except.ok (recs, lens), c) by
          simp [get_or_parse, h1, h2]] at heq
        have hres : res = (recs, lens) := by
          have := congrArg Prod.fst heq
          simpa using this.symm
        have hc2 : c2 = c := by
          have := congrArg Prod.snd heq
          simpa using this.symm
        subst hres
        subst hc2
        simp [get_or_parse, h1, h2]
      | none =>
        rw [show get_or_parse c hash content = getOrParseMiss c hash content by
          simp [get_or_parse, h1, h2]] at heq
        cases hp : parse_xmap_file content with
        | error e =>
          rw [show getOrParseMiss c hash content = (Except.error e, c) by
            simp [getOrParseMiss, hp]] at heq
          have := congrArg Prod.fst heq
          simp at this
        | ok pf =>
          rw [show getOrParseMiss c hash content =
              (Except.ok (pf.records, pf.chromosome_lengths),
               ⟨mapInsert hash pf.records c.parsed_files,
                mapInsert hash pf.chromosome_lengths c.chromosome_lengths⟩) by
            simp [getOrParseMiss, hp]] at heq
          have hres : res = (pf.records, pf.chromosome_lengths) := by
            have := congrArg Prod.fst heq
            simpa using this.symm
          have hc2 : c2 = ⟨mapInsert hash pf.records c.parsed_files,
              mapInsert hash pf.chromosome_lengths c.chromosome_lengths⟩ := by
            have := congrArg Prod.snd heq
            simpa using this.symm
          subst hres
          subst hc2
          simp [get_or_parse, mapLookup_insert_self]
    | none =>
      rw [show get_or_parse c hash content = getOrParseMiss c hash content by
        simp [get_or_parse, h1]] at heq
      cases hp : parse_xmap_file content with
      | error e =>
        rw [show getOrParseMiss c hash content = (Except.error e, c) by
          simp [getOrParseMiss, hp]] at heq
        have := congrArg Prod.fst heq
        simp at this
      | ok pf =>
        rw [show getOrParseMiss c hash content =
            (Except.ok (pf.records, pf.chromosome_lengths),
             ⟨mapInsert hash pf.records c.parsed_files,
              mapInsert hash pf.chromosome_lengths c.chromosome_lengths⟩) by
          simp [getOrParseMiss, hp]] at heq
        have hres : res = (pf.records, pf.chromosome_lengths) := by
          have := congrArg Prod.fst heq
          simpa using this.symm
        have hc2 : c2 = ⟨mapInsert hash pf.records c.parsed_files,
            mapInsert hash pf.chromosome_lengths c.chromosome_lengths⟩ := by
          have := congrArg Prod.snd heq
          simpa using this.symm
        subst hres
        subst hc2
        simp [get_or_parse, mapLookup_insert_self]

/-- Parseable content for the cache witnesses. -/
def c6Content : String :=
  "#h hdr\n1\t100\t1\t1000.0\t2000.0\t5000.0\t6000.0\t+\t15.0\t1M\t2000.0\t250000.0\n"

/-- The ParsedFile `c6Content` parses to. -/
def c6Parsed : ParsedFile :=
  ⟨[(1, ⟨1, 100, 1, 1000, 2000, 5000, 6000, '+', 15, 250000⟩)], [(1, 250000)]⟩

/-- The cache after a first miss call on the empty cache with hash 5. -/
def c6CacheAfter : XmapCache :=
  ⟨mapInsert 5 c6Parsed.records [], mapInsert 5 c6Parsed.chromosome_lengths []⟩

theorem c6_get_or_parse_compute_or_fetch_witness :
    get_or_parse c6CacheAfter 5 "totally different content" =
      (Except.ok (c6Parsed.records, c6Parsed.chromosome_lengths), c6CacheAfter) :=
  (c6_get_or_parse_compute_or_fetch ⟨[], []⟩ 5 c6Content).2.2
    (c6Parsed.records, c6Parsed.chromosome_lengths) c6CacheAfter
    (by decide) "totally different content"

/-! ## C10 -/

/-- C10: when the hash is not cached and the content fails to parse,
`get_or_parse` returns the parse error and the cache verbatim — no entry is
inserted into the parsed-files map or the chromosome-lengths map — so a later
call with the same hash attempts the parse again (here: a later call with
parseable content parses and stores it). -/
theorem c10_parse_error_leaves_cache (c : XmapCache) (hash : Nat)
    (content : String) (e : String)
    (hmiss : mapLookup hash c.parsed_files = none)
    (herr : parse_xmap_file content = Except.error e) :
    get_or_parse c hash content = (Except.error e, c)
  ∧ (∀ content2 pf, parse_xmap_file content2 = Except.ok pf →
      get_or_parse c hash content2 =
        (Except.ok (pf.records, pf.chromosome_lengths),
         ⟨mapInsert hash pf.records c.parsed_files,
          mapInsert hash pf.chromosome_lengths c.chromosome_lengths⟩)) := by
  constructor
  · simp [get_or_parse, hmiss, getOrParseMiss, herr]
  · intro content2 pf hpf
    simp [get_or_parse, hmiss, getOrParseMiss, hpf]

theorem c10_parse_error_leaves_cache_witness :
    get_or_parse ⟨[], []⟩ 5 c3Content =
      (Except.error "Parse RefContigID: invalid", (⟨[], []⟩ : XmapCache))
  ∧ get_or_parse ⟨[], []⟩ 5 c6Content =
      (Except.ok (c6Parsed.records, c6Parsed.chromosome_lengths),
       ⟨mapInsert 5 c6Parsed.records [],
        mapInsert 5 c6Parsed.chromosome_lengths []⟩) :=
  ⟨(c10_parse_error_leaves_cache ⟨[], []⟩ 5 c3Content
      "Parse RefContigID: invalid" (by decide) (by decide)).1,
   (c10_parse_error_leaves_cache ⟨[], []⟩ 5 c3Content
      "Parse RefContigID: invalid" (by decide) (by decide)).2
      c6Content c6Parsed (by decide)⟩

/-! ## C5 (match cache) -/

/-- Rust's `f64 as u64` cast: truncation toward zero, saturating at the
bounds (negative values to 0, values beyond `2 ^ 64 - 1` to the maximum). -/
def ratToU64 (q : Rat) : Nat :=
  if q < 0 then 0 else min q.floor.toNat (18446744073709551615)

/-- The default used when reading the head of a record list (every emitted
match has a nonempty `records`, so the default is never consulted there). -/
def defaultMatchedRecord : MatchedRecord := ⟨0, 0, 0, 0, 0, 0, '+', 0, 0⟩

/-- The per-match identifier of `XmapCache::cache_match`:
`(qry_contig_id as u64) << 32 | (records[0].qry_start_pos as u64)`.
`qry_contig_id` is a `u32` in the source; `% 2 ^ 32` makes that type bound
explicit in the embedding. -/
def match_id (m : XmapMatch) : Nat :=
  ((m.qry_contig_id % 4294967296) <<< 32) |||
    ratToU64 (m.records.headD defaultMatchedRecord).qry_start_pos

/-- `XmapCache::cache_match`: fetch or create the inner per-key map
(`match_cache.entry(key).or_insert_with(...)`) and insert the match under its
`match_id`, overwriting any previous entry with both keys equal. -/
def cache_match (cache : List (List Nat × List (Nat × XmapMatch)))
    (key : List Nat) (m : XmapMatch) :
    List (List Nat × List (Nat × XmapMatch)) :=
  match mapLookup key cache with
  | some inner => mapInsert key (mapInsert (match_id m) m inner) cache
  | none => mapInsert key (mapInsert (match_id m) m []) cache

/-- The composite key `stream_xmap_matches` (src/backend/src/api.rs) passes
to `cache_match`: `let cache_key = file_hashes.into_boxed_slice();` — the
hashes exactly in upload order, with no sorting anywhere. -/
def api_cache_key (file_hashes : List Nat) : List Nat := file_hashes

/-- The key as the spec's words describe it: the SORTED tuple of the
participating files' content hashes (for comparison with the key the code
actually uses). -/
def spec_sorted_cache_key (file_hashes : List Nat) : List Nat :=
  List.insertionSort (fun a b => a ≤ b) file_hashes

/-- C5 (amended): each produced match is stored under the composite key the
api actually builds — the file hashes in UPLOAD order, not sorted — together
with the packed per-match identifier, and an insertion overwrites exactly the
entry with both keys equal, leaving every other slot of the cache unchanged. -/
theorem c5_cache_match_upload_order_key
    (cache : List (List Nat × List (Nat × XmapMatch)))
    (hashes : List Nat) (m : XmapMatch) :
    mapLookup (match_id m)
        ((mapLookup (api_cache_key hashes)
          (cache_match cache (api_cache_key hashes) m)).getD []) = some m
  ∧ (∀ i2, i2 ≠ match_id m →
      mapLookup i2 ((mapLookup (api_cache_key hashes)
          (cache_match cache (api_cache_key hashes) m)).getD []) =
        mapLookup i2 ((mapLookup (api_cache_key hashes) cache).getD []))
  ∧ (∀ k2, k2 ≠ api_cache_key hashes →
      mapLookup k2 (cache_match cache (api_cache_key hashes) m) =
        mapLookup k2 cache) := by
  cases hin : mapLookup (api_cache_key hashes) cache with
  | some inner =>
    refine ⟨?_, ?_, ?_⟩
    · simp only [cache_match, hin]
      rw [mapLookup_insert_self]
      exact mapLookup_insert_self _ _ _
    · intro i2 hi2
      simp only [cache_match, hin]
      rw [mapLookup_insert_self]
      show mapLookup i2 (mapInsert (match_id m) m inner) = _
      rw [mapLookup_insert_ne _ _ _ _ hi2]
      rfl
    · intro k2 hk2
      simp only [cache_match, hin]
      exact mapLookup_insert_ne _ _ _ _ hk2
  | none =>
    refine ⟨?_, ?_, ?_⟩
    · simp only [cache_match, hin]
      rw [mapLookup_insert_self]
      exact mapLookup_insert_self _ _ _
    · intro i2 hi2
      simp only [cache_match, hin]
      rw [mapLookup_insert_self]
      show mapLookup i2 (mapInsert (match_id m) m []) = _
      rw [mapLookup_insert_ne _ _ _ _ hi2]
      rfl
    · intro k2 hk2
      simp only [cache_match, hin]
      exact mapLookup_insert_ne _ _ _ _ hk2

/-- A concrete match (contig id 7, first record starting at 5). -/
def c5Match : XmapMatch :=
  ⟨7, [0, 1], [⟨0, 1, 5, 6, 7, 8, '+', 9, 10⟩, ⟨1, 2, 5, 6, 7, 8, '-', 9, 10⟩]⟩

/-- C5 counterexample: with files uploaded so that their hashes arrive as
[2, 1], `cache_match` stores the match under the unsorted upload-order key
[2, 1]; nothing is stored under the sorted tuple [1, 2] the claim names. -/
theorem c5_sorted_key_counterexample :
    api_cache_key [2, 1] ≠ spec_sorted_cache_key [2, 1]
  ∧ mapLookup (spec_sorted_cache_key [2, 1])
      (cache_match [] (api_cache_key [2, 1]) c5Match) = none
  ∧ mapLookup (match_id c5Match)
      ((mapLookup [2, 1]
        (cache_match [] (api_cache_key [2, 1]) c5Match)).getD []) =
      some c5Match := by
  refine ⟨by decide, by decide, by decide⟩

theorem c5_cache_match_upload_order_key_witness :
    mapLookup (match_id c5Match)
        ((mapLookup (api_cache_key [2, 1])
          (cache_match [] (api_cache_key [2, 1]) c5Match)).getD []) =
      some c5Match
  ∧ mapLookup 0
        ((mapLookup (api_cache_key [2, 1])
          (cache_match [] (api_cache_key [2, 1]) c5Match)).getD []) =
      mapLookup 0 ((mapLookup (api_cache_key [2, 1]) []).getD []) :=
  ⟨(c5_cache_match_upload_order_key [] [2, 1] c5Match).1,
   (c5_cache_match_upload_order_key [] [2, 1] c5Match).2.1 0 (by decide)⟩

/-! ## Stream Encoder (C9)

`stream_xmap_matches` frames each serialized match as a 4-byte little-endian
unsigned length followed by exactly that many payload bytes, with no frame
terminator (src/backend/src/api.rs lines 111-114).  The payload produced by
`bincode::serialize` is modelled as a deterministic, self-delimiting byte
encoding of every `XmapMatch` field (the spec fixes only the framing and
requires the payload encoding to be deterministic and complete). -/

/-- Base-128 varint digits of `n` (low digits first, continuation bit 128);
the fuel argument only bounds the recursion and is set to `n` itself. -/
def varintAux : Nat → Nat → List Nat
  | 0, n => [n % 128]
  | fuel + 1, n =>
    if n < 128 then [n] else (128 + n % 128) :: varintAux fuel (n / 128)

/-- Self-delimiting encoding of an unbounded natural number. -/
def varint (n : Nat) : List Nat :=
  varintAux n n

/-- Decode one varint from the stream head. -/
def decodeVarint : List Nat → Option (Nat × List Nat)
  | [] => none
  | b :: rest =>
    if b < 128 then some (b, rest)
    else
      match decodeVarint rest with
      | some (v, rest2) => some (b - 128 + 128 * v, rest2)
      | none => none

theorem decodeVarint_varintAux {fuel n : Nat} (h : n ≤ fuel) (rest : List Nat) :
    decodeVarint (varintAux fuel n ++ rest) = some (n, rest) := by
  induction fuel generalizing n with
  | zero =>
    have : n = 0 := Nat.le_zero.mp h
    subst this
    simp [varintAux, decodeVarint]
  | succ fuel ih =>
    by_cases hn : n < 128
    · simp [varintAux, hn, decodeVarint]
    · have hdiv : n / 128 ≤ fuel := by omega
      simp only [varintAux, if_neg hn, List.cons_append]
      rw [show decodeVarint ((128 + n % 128) :: (varintAux fuel (n / 128) ++ rest)) =
          if (128 + n % 128) < 128 then some (128 + n % 128, varintAux fuel (n / 128) ++ rest)
          else match decodeVarint (varintAux fuel (n / 128) ++ rest) with
            | some (v, rest2) => some (128 + n % 128 - 128 + 128 * v, rest2)
            | none => none from rfl]
      rw [if_neg (by omega), ih hdiv]
      show some (128 + n % 128 - 128 + 128 * (n / 128), rest) = some (n, rest)
      have : 128 + n % 128 - 128 + 128 * (n / 128) = n := by omega
      rw [this]

theorem decodeVarint_varint (n : Nat) (rest : List Nat) :
    decodeVarint (varint n ++ rest) = some (n, rest) :=
  decodeVarint_varintAux (Nat.le_refl n) rest

/-- Sign byte, magnitude varint and denominator varint of a rational. -/
def encRat (q : Rat) : List Nat :=
  (if q.num < 0 then 1 else 0) :: (varint q.num.natAbs ++ varint q.den)

/-- Decode one rational. -/
def decodeRat : List Nat → Option (Rat × List Nat)
  | [] => none
  | s :: bs =>
    match decodeVarint bs with
    | some (a, bs2) =>
      match decodeVarint bs2 with
      | some (d, bs3) =>
          some (mkRat (if s = 1 then -(a : Int) else (a : Int)) d, bs3)
      | none => none
    | none => none

theorem decodeRat_encRat (q : Rat) (rest : List Nat) :
    decodeRat (encRat q ++ rest) = some (q, rest) := by
  by_cases hneg : q.num < 0
  · simp only [encRat, if_pos hneg, List.cons_append, List.append_assoc]
    simp only [decodeRat, decodeVarint_varint]
    have habs : -(↑q.num.natAbs : Int) = q.num := by omega
    rw [if_pos (by trivial)]
    rw [habs, Rat.mkRat_self]
  · simp only [encRat, if_neg hneg, List.cons_append, List.append_assoc]
    simp only [decodeRat, decodeVarint_varint]
    have habs : (↑q.num.natAbs : Int) = q.num := by omega
    rw [if_neg (by simp)]
    rw [habs, Rat.mkRat_self]

/-- Length-prefixed list encoding (the `u64` length bincode writes is
modelled by the unbounded varint). -/
def encList {α : Type} (enc : α → List Nat) (l : List α) : List Nat :=
  varint l.length ++ (l.map enc).flatten

/-- Decode exactly `k` elements. -/
def decodeListAux {α : Type} (dec : List Nat → Option (α × List Nat)) :
    Nat → List Nat → Option (List α × List Nat)
  | 0, bs => some ([], bs)
  | k + 1, bs =>
    match dec bs with
    | some (a, bs2) =>
      match decodeListAux dec k bs2 with
      | some (as, bs3) => some (a :: as, bs3)
      | none => none
    | none => none

/-- Decode a length-prefixed list. -/
def decodeList {α : Type} (dec : List Nat → Option (α × List Nat))
    (bs : List Nat) : Option (List α × List Nat) :=
  match decodeVarint bs with
  | some (k, bs2) => decodeListAux dec k bs2
  | none => none

theorem decodeListAux_enc {α : Type} {dec : List Nat → Option (α × List Nat)}
    {enc : α → List Nat}
    (hdec : ∀ a rest, dec (enc a ++ rest) = some (a, rest))
    (l : List α) (rest : List Nat) :
    decodeListAux dec l.length ((l.map enc).flatten ++ rest) = some (l, rest) := by
  induction l generalizing rest with
  | nil => simp [decodeListAux]
  | cons a as ih =>
    simp only [List.map_cons, List.flatten_cons, List.length_cons,
      List.append_assoc]
    simp only [decodeListAux, hdec, ih]

theorem decodeList_enc {α : Type} {dec : List Nat → Option (α × List Nat)}
    {enc : α → List Nat}
    (hdec : ∀ a rest, dec (enc a ++ rest) = some (a, rest))
    (l : List α) (rest : List Nat) :
    decodeList dec (encList enc l ++ rest) = some (l, rest) := by
  simp only [encList, List.append_assoc, decodeList, decodeVarint_varint]
  exact decodeListAux_enc hdec l rest

/-- The payload encoding of one `MatchedRecord`: every field in declaration
order. -/
def encMatchedRecord (r : MatchedRecord) : List Nat :=
  varint r.file_index ++ varint r.ref_contig_id ++ encRat r.qry_start_pos ++
  encRat r.qry_end_pos ++ encRat r.ref_start_pos ++ encRat r.ref_end_pos ++
  varint r.orientation.toNat ++ encRat r.confidence ++ encRat r.ref_len

/-- Decode one `MatchedRecord`. -/
def decodeMatchedRecord (bs : List Nat) : Option (MatchedRecord × List Nat) :=
  match decodeVarint bs with
  | none => none
  | some (fi, b1) =>
  match decodeVarint b1 with
  | none => none
  | some (rc, b2) =>
  match decodeRat b2 with
  | none => none
  | some (qs, b3) =>
  match decodeRat b3 with
  | none => none
  | some (qe, b4) =>
  match decodeRat b4 with
  | none => none
  | some (rs, b5) =>
  match decodeRat b5 with
  | none => none
  | some (re, b6) =>
  match decodeVarint b6 with
  | none => none
  | some (oc, b7) =>
  match decodeRat b7 with
  | none => none
  | some (cf, b8) =>
  match decodeRat b8 with
  | none => none
  | some (rl, b9) =>
    some (⟨fi, rc, qs, qe, rs, re, Char.ofNat oc, cf, rl⟩, b9)

theorem decodeMatchedRecord_enc (r : MatchedRecord) (rest : List Nat) :
    decodeMatchedRecord (encMatchedRecord r ++ rest) = some (r, rest) := by
  simp only [encMatchedRecord, List.append_assoc]
  simp only [decodeMatchedRecord, decodeVarint_varint, decodeRat_encRat]
  rw [Char.ofNat_toNat]

/-- The payload encoding of one `XmapMatch`, covering all of its fields. -/
def serialize_match (m : XmapMatch) : List Nat :=
  varint m.qry_contig_id ++ encList varint m.file_indices ++
  encList encMatchedRecord m.records

/-- Decode one `XmapMatch`. -/
def decode_match (bs : List Nat) : Option (XmapMatch × List Nat) :=
  match decodeVarint bs with
  | none => none
  | some (qid, b1) =>
  match decodeList decodeVarint b1 with
  | none => none
  | some (fis, b2) =>
  match decodeList decodeMatchedRecord b2 with
  | none => none
  | some (recs, b3) => some (⟨qid, fis, recs⟩, b3)

theorem decode_match_enc (m : XmapMatch) (rest : List Nat) :
    decode_match (serialize_match m ++ rest) = some (m, rest) := by
  simp only [serialize_match, List.append_assoc]
  simp only [decode_match, decodeVarint_varint,
    decodeList_enc decodeVarint_varint,
    decodeList_enc decodeMatchedRecord_enc]

/-- The 4 little-endian bytes of a `u32` value (`(len as u32).to_le_bytes()`). -/
def u32le (n : Nat) : List Nat :=
  [n % 256, n / 256 % 256, n / 65536 % 256, n / 16777216 % 256]

/-- `stream_xmap_matches`' framing loop: for each match, the 4-byte
little-endian payload length, then the payload; no terminator. -/
def encode_frames (ms : List XmapMatch) : List Nat :=
  (ms.map (fun m => u32le (serialize_match m).length ++ serialize_match m)).flatten

/-- Decode a frame stream: end of input cleanly ends the stream; a frame
needs its 4 length bytes and exactly `len` payload bytes that decode to one
match with nothing left over.  The fuel only bounds recursion and is set to
the stream length. -/
def decode_frames_aux : Nat → List Nat → Option (List XmapMatch)
  | _, [] => some []
  | 0, _ :: _ => none
  | fuel + 1, b0 :: b1 :: b2 :: b3 :: rest =>
    let len := b0 + 256 * b1 + 65536 * b2 + 16777216 * b3
    if len ≤ rest.length then
      match decode_match (rest.take len) with
      | some (m, []) =>
        match decode_frames_aux fuel (rest.drop len) with
        | some ms => some (m :: ms)
        | none => none
      | _ => none
    else none
  | _ + 1, _ => none

/-- Decode a whole frame stream. -/
def decode_frames (bs : List Nat) : Option (List XmapMatch) :=
  decode_frames_aux bs.length bs

theorem decode_frames_aux_cons (fuel b0 b1 b2 b3 : Nat) (rest : List Nat) :
    decode_frames_aux (fuel + 1) (b0 :: b1 :: b2 :: b3 :: rest) =
      (if b0 + 256 * b1 + 65536 * b2 + 16777216 * b3 ≤ rest.length then
        match decode_match
            (rest.take (b0 + 256 * b1 + 65536 * b2 + 16777216 * b3)) with
        | some (m, []) =>
          (match decode_frames_aux fuel
              (rest.drop (b0 + 256 * b1 + 65536 * b2 + 16777216 * b3)) with
            | some ms => some (m :: ms)
            | none => none)
        | _ => none
      else none) := rfl

theorem decode_frames_aux_round {ms : List XmapMatch} {fuel : Nat}
    (hfuel : ms.length ≤ fuel)
    (hsize : ∀ m ∈ ms, (serialize_match m).length < 4294967296) :
    decode_frames_aux fuel (encode_frames ms) = some ms := by
  induction ms generalizing fuel with
  | nil =>
    show decode_frames_aux fuel [] = some []
    cases fuel <;> rfl
  | cons m ms ih =>
    cases fuel with
    | zero => simp at hfuel
    | succ f =>
      have hm := hsize m (List.mem_cons_self m ms)
      have hrest := fun m2 h2 => hsize m2 (List.mem_cons_of_mem m h2)
      have hfuel2 : ms.length ≤ f := by simpa using hfuel
      have hE : encode_frames (m :: ms) =
          ((serialize_match m).length % 256) ::
          ((serialize_match m).length / 256 % 256) ::
          ((serialize_match m).length / 65536 % 256) ::
          ((serialize_match m).length / 16777216 % 256) ::
            (serialize_match m ++ encode_frames ms) := by
        simp [encode_frames, u32le]
      rw [hE, decode_frames_aux_cons]
      have hlen : (serialize_match m).length % 256 +
          256 * ((serialize_match m).length / 256 % 256) +
          65536 * ((serialize_match m).length / 65536 % 256) +
          16777216 * ((serialize_match m).length / 16777216 % 256) =
            (serialize_match m).length := by omega
      rw [hlen]
      rw [if_pos (by rw [List.length_append]; exact Nat.le_add_right _ _)]
      rw [List.take_left, List.drop_left]
      have hdm : decode_match (serialize_match m) = some (m, []) := by
        have := decode_match_enc m []
        rwa [List.append_nil] at this
      rw [hdm, ih hfuel2 hrest]

theorem encode_frames_length (ms : List XmapMatch) :
    ms.length ≤ (encode_frames ms).length := by
  induction ms with
  | nil => simp [encode_frames]
  | cons m ms ih =>
    have hE : encode_frames (m :: ms) =
        (u32le (serialize_match m).length ++ serialize_match m) ++
          encode_frames ms := by
      simp [encode_frames]
    rw [hE]
    simp only [List.length_append, List.length_cons, u32le]
    simp only [List.length_cons, List.length_nil]
    omega

/-- C9: framing N serialized matches as 4-byte little-endian length plus
payload (no terminator) round-trips: decoding the concatenated frame stream
recovers exactly the N original matches, field for field; N = 0 produces the
empty stream, which decodes to the empty match list.  (A frame's 4-byte
length field requires the payload to be shorter than 2^32 bytes, which the
hypothesis makes explicit.) -/
theorem c9_framing_round_trip (ms : List XmapMatch)
    (hsize : ∀ m ∈ ms, (serialize_match m).length < 4294967296) :
    decode_frames (encode_frames ms) = some ms
  ∧ encode_frames ([] : List XmapMatch) = []
  ∧ decode_frames [] = some ([] : List XmapMatch) := by
  refine ⟨?_, rfl, rfl⟩
  exact decode_frames_aux_round (encode_frames_length ms) hsize

/-- A small concrete match for the C9 witness. -/
def c9Match : XmapMatch := ⟨7, [0, 1], [⟨0, 1, 5, 6, 7, 8, '+', 9, 10⟩]⟩

theorem c9_framing_round_trip_witness :
    (∀ m ∈ [c9Match], (serialize_match m).length < 4294967296)
  ∧ decode_frames (encode_frames [c9Match]) = some [c9Match] :=
  ⟨by decide, (c9_framing_round_trip [c9Match] (by decide)).1⟩
